import Mathlib

/-!
Verification of the intersection / light-transport core of the
`cs397_ray_tracing_sp22` ray tracer (files `src/util/geometry.rs` and
`src/util/tracing.rs`).

The Rust code computes with `f32`; this development embeds the same
arithmetic over `ℚ` (exact rational arithmetic, the usual idealisation of
floating point for statements about branch structure and exact geometry).
The only `f32` operation with no rational counterpart is `sqrt`; it is
embedded as `qSqrt`, the exact square root on the rationals whose square
root is rational (and a default of `0` elsewhere).  Every concrete input
used in a theorem below keeps all square roots rational, so on those
inputs the embedding agrees with the real-arithmetic reading of the code.

Rust `Vector3<f32>` (cgmath) becomes the `Vec3` structure below; the
`Material` trait object / struct is opaque to all the embedded routines,
so a material is embedded as a `ℕ` identifier (`Material::default()` is
identifier `0`).
-/

/-- Three-component vector, embedding cgmath `Vector3<f32>` over `ℚ`. -/
@[ext]
structure Vec3 where
  x : ℚ
  y : ℚ
  z : ℚ
deriving DecidableEq, Repr

namespace Vec3

instance : Zero Vec3 := ⟨⟨0, 0, 0⟩⟩

instance : Add Vec3 := ⟨fun a b => ⟨a.x + b.x, a.y + b.y, a.z + b.z⟩⟩

instance : Sub Vec3 := ⟨fun a b => ⟨a.x - b.x, a.y - b.y, a.z - b.z⟩⟩

instance : Neg Vec3 := ⟨fun a => ⟨-a.x, -a.y, -a.z⟩⟩

instance : SMul ℚ Vec3 := ⟨fun k a => ⟨k * a.x, k * a.y, k * a.z⟩⟩

/-- Dot product (`cgmath::dot`). -/
def dot (a b : Vec3) : ℚ := a.x * b.x + a.y * b.y + a.z * b.z

/-- Cross product (`Vector3::cross`). -/
def cross (a b : Vec3) : Vec3 :=
  ⟨a.y * b.z - a.z * b.y, a.z * b.x - a.x * b.z, a.x * b.y - a.y * b.x⟩

/-- Component access, embedding cgmath `Index<usize>` (`v[axis]`).
Only indices 0..3 occur in the code; others default to 0. -/
def nth (v : Vec3) : ℕ → ℚ
  | 0 => v.x
  | 1 => v.y
  | 2 => v.z
  | _ => 0

/-- Componentwise division by a scalar (`v / k`). -/
def divScalar (v : Vec3) (k : ℚ) : Vec3 := ⟨v.x / k, v.y / k, v.z / k⟩

/-- Componentwise product (`ElementWise::mul_element_wise`). -/
def mulElementWise (a b : Vec3) : Vec3 := ⟨a.x * b.x, a.y * b.y, a.z * b.z⟩

theorem add_def (a b : Vec3) : a + b = ⟨a.x + b.x, a.y + b.y, a.z + b.z⟩ := rfl

theorem sub_def (a b : Vec3) : a - b = ⟨a.x - b.x, a.y - b.y, a.z - b.z⟩ := rfl

theorem neg_def (a : Vec3) : -a = ⟨-a.x, -a.y, -a.z⟩ := rfl

theorem smul_def (k : ℚ) (a : Vec3) : k • a = ⟨k * a.x, k * a.y, k * a.z⟩ := rfl

theorem zero_def : (0 : Vec3) = ⟨0, 0, 0⟩ := rfl

end Vec3

/-- Exact rational square root: embeds `f32::sqrt` on the rationals whose
square root is again rational (all concrete inputs used below), `0`
elsewhere. -/
def qSqrt (q : ℚ) : ℚ :=
  let n := Nat.sqrt q.num.toNat
  let d := Nat.sqrt q.den
  if 0 ≤ q ∧ n * n = q.num.toNat ∧ d * d = q.den then (n : ℚ) / (d : ℚ) else 0

/-- Squaring a non-negative rational and then taking `qSqrt` gives it back. -/
theorem qSqrt_mul_self (q : ℚ) (hq : 0 ≤ q) : qSqrt (q * q) = q := by
  have hnum : (q * q).num = q.num * q.num := Rat.mul_self_num q
  have hden : (q * q).den = q.den * q.den := Rat.mul_self_den q
  have hq0 : 0 ≤ q.num := Rat.num_nonneg.2 hq
  obtain ⟨n, hn⟩ : ∃ n : ℕ, q.num = (n : ℤ) := ⟨q.num.toNat, (Int.toNat_of_nonneg hq0).symm⟩
  have hto : (q * q).num.toNat = n * n := by
    rw [hnum, hn]
    omega
  have key : ((n : ℚ)) / ((q.den : ℚ)) = q := by
    have h1 : ((q.num : ℚ)) / ((q.den : ℚ)) = q := Rat.num_div_den q
    rw [hn] at h1
    push_cast at h1
    exact h1
  unfold qSqrt
  rw [hto, hden, Nat.sqrt_eq, Nat.sqrt_eq]
  have hcond : (0 : ℚ) ≤ q * q ∧ n * n = n * n ∧ q.den * q.den = q.den * q.den :=
    ⟨mul_self_nonneg q, rfl, rfl⟩
  rw [if_pos hcond]
  exact key

namespace Vec3

/-- Embedding of `Vector3::normalize`: divide by the magnitude (`sqrt` of `magnitude2`). -/
def normalize (v : Vec3) : Vec3 := (1 / qSqrt (v.dot v)) • v

end Vec3

/-- Embedding of `Ray` (tracing.rs): origin plus direction. -/
structure Ray where
  origin : Vec3
  direction : Vec3
deriving DecidableEq, Repr

/-- Embedding of `RayHit` as constructed throughout geometry.rs: distance, hit point,
normal, and the (opaque) material. -/
structure RayHit where
  distance : ℚ
  hitpoint : Vec3
  normal : Vec3
  material : ℕ
deriving DecidableEq, Repr

/-- Embedding of `AABB` (geometry.rs): axis-aligned bounding box. -/
@[ext]
structure AABB where
  min : Vec3
  max : Vec3
deriving DecidableEq, Repr

instance : Inhabited AABB := ⟨⟨0, 0⟩⟩

namespace AABB

/-- Embedding of `AABB::aabb_surrounding`: per-axis min of mins and max of maxes.
(`Min.min`/`Max.max` are written qualified because inside this namespace
the bare names refer to the structure projections.) -/
def aabb_surrounding (a b : AABB) : AABB :=
  { min := ⟨Min.min a.min.x b.min.x, Min.min a.min.y b.min.y, Min.min a.min.z b.min.z⟩
    max := ⟨Max.max a.max.x b.max.x, Max.max a.max.y b.max.y, Max.max a.max.z b.max.z⟩ }

/-- The slab-test loop of `impl Intersectable for AABB :: intersect_ray`,
iterating over the given list of axes with the running `[tmin, tmax]`
interval.  The Rust loop body is `for axis in 0..3`. -/
def slab (b : AABB) (ray : Ray) : List ℕ → ℚ → ℚ → Bool
  | [], _, _ => true
  | axis :: rest, tmin, tmax =>
    let invD := 1 / ray.direction.nth axis
    let t0 := (b.min.nth axis - ray.origin.nth axis) * invD
    let t1 := (b.max.nth axis - ray.origin.nth axis) * invD
    let t0s := if invD < 0 then t1 else t0
    let t1s := if invD < 0 then t0 else t1
    let tmin' := Max.max t0s tmin
    let tmax' := Min.min t1s tmax
    if tmax' ≤ tmin' then false else slab b ray rest tmin' tmax'

/-- Embedding of `impl Intersectable for AABB :: intersect_ray`: the slab test over the
three axes; a hit is reported as a placeholder default `RayHit`. -/
def intersect_ray (b : AABB) (ray : Ray) (t_min t_max : ℚ) : Option RayHit :=
  if slab b ray [0, 1, 2] t_min t_max then some ⟨0, 0, 0, 0⟩ else none

/-- Embedding of `impl Intersectable for AABB :: bounding_box`. -/
def bounding_box (b : AABB) : Option AABB := some b

end AABB

/-- Containment of one box in another, stated per-axis as in the spec:
the outer min is `≤` the inner min and the outer max is `≥` the inner
max on every axis. -/
def AABB.containsBox (outer inner : AABB) : Prop :=
  outer.min.x ≤ inner.min.x ∧ outer.min.y ≤ inner.min.y ∧ outer.min.z ≤ inner.min.z ∧
  inner.max.x ≤ outer.max.x ∧ inner.max.y ≤ outer.max.y ∧ inner.max.z ≤ outer.max.z

/-- Claim C9: `AABB::aabb_surrounding(a, b)` contains both `a` and `b`
per axis (its min is `≤` each input's min, its max is `≥` each input's
max), and the operation is commutative and associative. -/
theorem aabb_surrounding_contains_comm_assoc :
    (∀ a b : AABB, (AABB.aabb_surrounding a b).containsBox a ∧
      (AABB.aabb_surrounding a b).containsBox b)
    ∧ (∀ a b : AABB, AABB.aabb_surrounding a b = AABB.aabb_surrounding b a)
    ∧ (∀ a b c : AABB,
        AABB.aabb_surrounding (AABB.aabb_surrounding a b) c
          = AABB.aabb_surrounding a (AABB.aabb_surrounding b c)) := by
  refine ⟨fun a b => ?_, fun a b => ?_, fun a b c => ?_⟩
  · constructor <;>
      simp [AABB.aabb_surrounding, AABB.containsBox,
        min_le_left, min_le_right, le_max_left, le_max_right]
  · ext <;> simp [AABB.aabb_surrounding, min_comm, max_comm]
  · ext <;> simp [AABB.aabb_surrounding, min_assoc, max_assoc]

/-- The Möller–Trumbore epsilon (`const EPSILON : f32 = 0.0001`). -/
def mtEpsilon : ℚ := 1 / 10000

/-- The common Möller–Trumbore body shared verbatim by
`Triangle::intersect_ray` and `IndexedTriangle::intersect_ray`
(geometry.rs; the two Rust functions have identical bodies after the
vertex lookup, differing only in the material stored in the hit). -/
def mtIntersect (a b c : Vec3) (mat : ℕ) (ray : Ray) (t_min t_max : ℚ) : Option RayHit :=
  let e1 := b - a
  let e2 := c - a
  let q := ray.direction.cross e2
  let g := e1.dot q
  if |g| < mtEpsilon then none else
  let f := 1 / g
  let s := ray.origin - a
  let u := f * s.dot q
  if u < 0 then none else
  let r := s.cross e1
  let v := f * ray.direction.dot r
  if v < 0 ∨ 1 < u + v then none else
  let t := f * e2.dot r
  let hitpoint := ray.origin + t • ray.direction
  if t < t_min ∨ t_max < t then none else
  some ⟨t, hitpoint, (e1.cross e2).normalize, mat⟩

/-- The Möller–Trumbore candidate hit: the same computation as
`mtIntersect` but without the final `[t_min, t_max]` interval check.
The candidate does not depend on the query interval; `mtIntersect` is
this candidate filtered by the interval (proved below). -/
def mtCand (a b c : Vec3) (mat : ℕ) (ray : Ray) : Option RayHit :=
  let e1 := b - a
  let e2 := c - a
  let q := ray.direction.cross e2
  let g := e1.dot q
  if |g| < mtEpsilon then none else
  let f := 1 / g
  let s := ray.origin - a
  let u := f * s.dot q
  if u < 0 then none else
  let r := s.cross e1
  let v := f * ray.direction.dot r
  if v < 0 ∨ 1 < u + v then none else
  let t := f * e2.dot r
  let hitpoint := ray.origin + t • ray.direction
  some ⟨t, hitpoint, (e1.cross e2).normalize, mat⟩

/-- The Möller–Trumbore denominator `g = e1 · (direction × e2)`; rays with
`|g| < mtEpsilon` are rejected as parallel to the triangle plane. -/
def mtDenom (a b c : Vec3) (ray : Ray) : ℚ :=
  (b - a).dot (ray.direction.cross (c - a))

/-- The shared vertex/index buffer of `tobj::Mesh` (the parts read by the
embedded code: flat `positions` and `indices` arrays). -/
structure Mesh where
  positions : List ℚ
  indices : List ℕ
deriving DecidableEq, Repr

/-- Embedding of `StaticMesh::get_triangle_from_mesh`: resolve the `idx`-th triangle's
three vertices from the flat buffers.  (Rust indexing panics out of
bounds; the embedding totalises with default `0`, and every input used
below is in bounds.) -/
def Mesh.getTriangle (m : Mesh) (idx : ℕ) : Vec3 × Vec3 × Vec3 :=
  let x := m.indices.getD (idx * 3) 0
  let y := m.indices.getD (idx * 3 + 1) 0
  let z := m.indices.getD (idx * 3 + 2) 0
  (⟨m.positions.getD (x * 3) 0, m.positions.getD (x * 3 + 1) 0, m.positions.getD (x * 3 + 2) 0⟩,
   ⟨m.positions.getD (y * 3) 0, m.positions.getD (y * 3 + 1) 0, m.positions.getD (y * 3 + 2) 0⟩,
   ⟨m.positions.getD (z * 3) 0, m.positions.getD (z * 3 + 1) 0, m.positions.getD (z * 3 + 2) 0⟩)

/-- Embedding of `IndexedTriangle` (geometry.rs): an index into a shared mesh. -/
structure IndexedTriangle where
  idx : ℕ
  mesh : Mesh
deriving DecidableEq, Repr

namespace IndexedTriangle

/-- Embedding of `IndexedTriangle::intersect_ray`: vertex lookup followed by the
Möller–Trumbore test; the stored material is `Material::default()`
(identifier `0`). -/
def intersect_ray (tri : IndexedTriangle) (ray : Ray) (t_min t_max : ℚ) : Option RayHit :=
  let abc := tri.mesh.getTriangle tri.idx
  mtIntersect abc.1 abc.2.1 abc.2.2 0 ray t_min t_max

/-- Embedding of `IndexedTriangle::bounding_box`: per-axis extrema of the three
vertices. -/
def bounding_box (tri : IndexedTriangle) : Option AABB :=
  let abc := tri.mesh.getTriangle tri.idx
  some
    { min := ⟨Min.min abc.1.x (Min.min abc.2.1.x abc.2.2.x),
              Min.min abc.1.y (Min.min abc.2.1.y abc.2.2.y),
              Min.min abc.1.z (Min.min abc.2.1.z abc.2.2.z)⟩
      max := ⟨Max.max abc.1.x (Max.max abc.2.1.x abc.2.2.x),
              Max.max abc.1.y (Max.max abc.2.1.y abc.2.2.y),
              Max.max abc.1.z (Max.max abc.2.1.z abc.2.2.z)⟩ }

/-- The Möller–Trumbore candidate of an indexed triangle. -/
def cand (tri : IndexedTriangle) (ray : Ray) : Option RayHit :=
  let abc := tri.mesh.getTriangle tri.idx
  mtCand abc.1 abc.2.1 abc.2.2 0 ray

end IndexedTriangle

/-- Embedding of `Triangle` (geometry.rs): three explicit vertices plus material. -/
structure Triangle where
  a : Vec3
  b : Vec3
  c : Vec3
  material : ℕ
deriving DecidableEq, Repr

/-- Embedding of `Triangle::intersect_ray` (geometry.rs lines 340-364). -/
def Triangle.intersect_ray (tr : Triangle) (ray : Ray) (t_min t_max : ℚ) : Option RayHit :=
  mtIntersect tr.a tr.b tr.c tr.material ray t_min t_max

/-- Embedding of `Triangle::bounding_box`. -/
def Triangle.bounding_box (tr : Triangle) : Option AABB :=
  some
    { min := ⟨Min.min tr.a.x (Min.min tr.b.x tr.c.x),
              Min.min tr.a.y (Min.min tr.b.y tr.c.y),
              Min.min tr.a.z (Min.min tr.b.z tr.c.z)⟩
      max := ⟨Max.max tr.a.x (Max.max tr.b.x tr.c.x),
              Max.max tr.a.y (Max.max tr.b.y tr.c.y),
              Max.max tr.a.z (Max.max tr.b.z tr.c.z)⟩ }

/-- Embedding of `Sphere` (geometry.rs). -/
structure Sphere where
  center : Vec3
  radius : ℚ
  material : ℕ
deriving DecidableEq, Repr

/-- Quadratic coefficient `a = direction.magnitude2()` of
`Sphere::intersect_ray`. -/
def sphA (ray : Ray) : ℚ := ray.direction.dot ray.direction

/-- Quadratic coefficient `b = 2 f·direction` of `Sphere::intersect_ray`
(`f = origin - center`). -/
def sphB (s : Sphere) (ray : Ray) : ℚ := 2 * ((ray.origin - s.center).dot ray.direction)

/-- Quadratic coefficient `c = f.magnitude2() - radius²`. -/
def sphC (s : Sphere) (ray : Ray) : ℚ :=
  (ray.origin - s.center).dot (ray.origin - s.center) - s.radius * s.radius

/-- The discriminant `d = b² - 4ac` of `Sphere::intersect_ray`. -/
def sphDisc (s : Sphere) (ray : Ray) : ℚ :=
  sphB s ray * sphB s ray - 4 * sphA ray * sphC s ray

/-- Embedding of `Sphere::intersect_ray` (geometry.rs lines 301-322): solve the
quadratic; reject a negative discriminant; take the smaller root
`(-b - sqrt d) / 2a`; reject it outside `[t_min, t_max]`. -/
def Sphere.intersect_ray (s : Sphere) (ray : Ray) (t_min t_max : ℚ) : Option RayHit :=
  if sphDisc s ray < 0 then none
  else
    let t := (-(sphB s ray) - qSqrt (sphDisc s ray)) / (2 * sphA ray)
    let hitpoint := ray.origin + t • ray.direction
    if t < t_min ∨ t_max < t then none
    else some ⟨t, hitpoint, (hitpoint - s.center).normalize, s.material⟩

/-- Embedding of `Sphere::bounding_box`. -/
def Sphere.bounding_box (s : Sphere) : Option AABB :=
  some { min := s.center - ⟨s.radius, s.radius, s.radius⟩
         max := s.center + ⟨s.radius, s.radius, s.radius⟩ }

/-- Embedding of `f32::signum` as used on `origin_dist` in `Plane::intersect_ray`:
`1` for non-negative input (Rust returns `1.0` for `+0.0`), `-1` for
negative. -/
def signumQ (x : ℚ) : ℚ := if x < 0 then -1 else 1

/-- The plane normal flipped toward the ray origin's side
(`n = origin_dist.signum() * self.normal` in `Plane::intersect_ray`). -/
def planeFacingNormal (point normal : Vec3) (ray : Ray) : Vec3 :=
  signumQ ((ray.origin - point).dot normal) • normal

/-- Embedding of `Plane` (geometry.rs). -/
structure Plane where
  point : Vec3
  normal : Vec3
  material : ℕ
deriving DecidableEq, Repr

/-- Embedding of `Plane::intersect_ray` (geometry.rs lines 388-408). -/
def Plane.intersect_ray (p : Plane) (ray : Ray) (t_min t_max : ℚ) : Option RayHit :=
  let origin_dist := (ray.origin - p.point).dot p.normal
  let n := planeFacingNormal p.point p.normal ray
  let d := ray.direction.dot n
  if 0 ≤ d then none
  else
    let t := |origin_dist| / |d|
    if t < t_min ∨ t_max < t then none
    else some ⟨t, ray.origin + t • ray.direction, n, p.material⟩

/-- Embedding of `Plane::bounding_box`: an infinite plane has none. -/
def Plane.bounding_box (_ : Plane) : Option AABB := none

/-- Embedding of `BVHNode` (geometry.rs).  The Rust struct holds `Option` children and
an `Option<IndexedTriangle>` primitive; `build_bvh_helper` only ever
produces the two shapes below (a leaf with a primitive and no children,
or an interior node with both children and no primitive), so the tree is
embedded as this inductive. -/
inductive BVHNode where
  | leaf (aabb : AABB) (primitive : IndexedTriangle)
  | node (aabb : AABB) (left right : BVHNode)
deriving DecidableEq, Repr

namespace BVHNode

/-- The `aabb` field of either node shape. -/
def box : BVHNode → AABB
  | leaf aabb _ => aabb
  | node aabb _ _ => aabb

/-- Embedding of `BVHNode::intersect_ray` (geometry.rs lines 89-115): a leaf delegates
to its primitive; an interior node gates on its box, searches the left
child over `[t_min, t_max]`, and searches the right child over
`[t_min, best_t]` where `best_t` is the left hit's distance (or `t_max`
when the left child missed), returning the last hit found. -/
def intersect_ray : BVHNode → Ray → ℚ → ℚ → Option RayHit
  | leaf _ prim, ray, t_min, t_max => prim.intersect_ray ray t_min t_max
  | node aabb l r, ray, t_min, t_max =>
    if (aabb.intersect_ray ray t_min t_max).isSome then
      match l.intersect_ray ray t_min t_max with
      | some hitL =>
        match r.intersect_ray ray t_min hitL.distance with
        | some hitR => some hitR
        | none => some hitL
      | none => r.intersect_ray ray t_min t_max
    else none

/-- Embedding of `BVHNode::bounding_box`. -/
def bounding_box (n : BVHNode) : Option AABB := some n.box

/-- The leaf primitives of a BVH in left-to-right order. -/
def leaves : BVHNode → List IndexedTriangle
  | leaf _ prim => [prim]
  | node _ l r => leaves l ++ leaves r

end BVHNode

/-- The sort key used by `build_bvh_helper`'s comparator:
`bounding_box().unwrap_or_default().min[axis]`. -/
def bvhSortKey (axis : ℕ) (t : IndexedTriangle) : ℚ :=
  ((t.bounding_box).getD default).min.nth axis

/-- Stable insertion into a sorted list, keeping an earlier element first
on equal keys — the tie behaviour of Rust's stable `sort_by` with the
`partial_cmp ... unwrap_or(Equal)` comparator. -/
def insertSorted (key : IndexedTriangle → ℚ) (t : IndexedTriangle) :
    List IndexedTriangle → List IndexedTriangle
  | [] => [t]
  | u :: us => if key t ≤ key u then t :: u :: us else u :: insertSorted key t us

/-- Stable sort by key (embedding `tris[start..end].sort_by(comparator)`;
stability matches Rust's `sort_by`). -/
def sortByKey (key : IndexedTriangle → ℚ) : List IndexedTriangle → List IndexedTriangle
  | [] => []
  | t :: ts => insertSorted key t (sortByKey key ts)

/-- Embedding of `StaticMesh::build_bvh_helper` (geometry.rs lines 178-205), with the
segment `tris[start..end]` passed as the list `tris` and the random axis
draws (`rng.gen_range(0..3)`) supplied as the oracle list `axes`.

Rust recursion terminates because each recursive call strictly shrinks
the segment, so the segment length bounds the recursion depth; the
embedding makes that bound explicit as the structural `fuel` argument
(`build_bvh_helper` below instantiates `fuel := tris.length`, which the
fuel-0 and length-0 branches never reach — Rust diverges on an empty
segment, which `build_bvh` never produces for a non-empty mesh).

Note the base case stores `IndexedTriangle { idx: start, .. }` — the
triangle at mesh index `start` — exactly as the Rust line
`let tri = IndexedTriangle { idx: start, mesh: self.mesh.clone() };`
does, regardless of how the sort permuted the segment. -/
def buildGo (mesh : Mesh) : ℕ → List IndexedTriangle → ℕ → List ℕ → BVHNode × List ℕ
  | 0, _, start, axes => (.leaf default ⟨start, mesh⟩, axes)
  | fuel + 1, tris, start, axes =>
    if tris.length = 1 then
      let tri : IndexedTriangle := ⟨start, mesh⟩
      (.leaf (tri.bounding_box.getD default) tri, axes)
    else if tris.length = 0 then (.leaf default ⟨start, mesh⟩, axes)
    else
      let axis := axes.headD 0
      let sorted := sortByKey (bvhSortKey axis) tris
      let mid := tris.length / 2
      let lr := buildGo mesh fuel (sorted.take mid) start axes.tail
      let rr := buildGo mesh fuel (sorted.drop mid) (start + mid) lr.2
      (.node (AABB.aabb_surrounding lr.1.box rr.1.box) lr.1 rr.1, rr.2)

/-- Embedding of `StaticMesh::build_bvh_helper` on the segment `tris` starting at
absolute index `start`. -/
def build_bvh_helper (mesh : Mesh) (tris : List IndexedTriangle) (start : ℕ)
    (axes : List ℕ) : BVHNode × List ℕ :=
  buildGo mesh tris.length tris start axes

/-- Embedding of `StaticMesh::build_bvh`: build over the triangles `0 .. indices.len()/3`. -/
def build_bvh (mesh : Mesh) (axes : List ℕ) : BVHNode :=
  (build_bvh_helper mesh
    ((List.range (mesh.indices.length / 3)).map fun i => ⟨i, mesh⟩) 0 axes).1

/-- Embedding of `StaticMesh` (geometry.rs): the fields read by `intersect_ray` /
`bounding_box` (the transform field is never applied in the embedded
code, and mesh loading is out of scope). -/
structure StaticMesh where
  mesh : Mesh
  material : ℕ
  bvh_root : Option BVHNode

/-- Embedding of `StaticMesh::intersect_ray` (geometry.rs lines 220-229): delegate to
the BVH root and replace the hit's material with the mesh's own. -/
def StaticMesh.intersect_ray (sm : StaticMesh) (ray : Ray) (t_min t_max : ℚ) :
    Option RayHit :=
  match sm.bvh_root with
  | some root =>
    match root.intersect_ray ray t_min t_max with
    | some hit => some { hit with material := sm.material }
    | none => none
  | none => none

/-- Embedding of `StaticMesh::bounding_box`. -/
def StaticMesh.bounding_box (sm : StaticMesh) : Option AABB :=
  match sm.bvh_root with
  | some node => node.bounding_box
  | none => none

/-- Embedding of `Vec2` (tracing.rs typedef). -/
structure Vec2 where
  x : ℚ
  y : ℚ
deriving DecidableEq, Repr

/-- Embedding of `RayHit` as defined in tracing.rs (the later revision of the hit
record): the four geometry fields plus the front-face flag and optional
texture frame. -/
structure RayHitT where
  distance : ℚ
  hitpoint : Vec3
  normal : Vec3
  material : ℕ
  frontface : Bool
  tex_coords : Option Vec2
  tangent : Option Vec3
  bitangent : Option Vec3
deriving DecidableEq, Repr

/-- Embedding of `RayHit::new` (tracing.rs lines 119-134): compute the front-face flag
from the incoming ray and store the normal flipped toward the ray when
the geometric normal does not already face it. -/
def RayHitT.new (distance : ℚ) (normal : Vec3) (material : ℕ) (ray : Ray) : RayHitT :=
  let frontface := normal.dot ray.direction < 0
  { distance := distance
    hitpoint := ray.origin + distance • ray.direction
    normal := if frontface then normal else -normal
    material := material
    frontface := if frontface then true else false
    tex_coords := none
    tangent := none
    bitangent := none }

/-- The camera fields read by the embedded tracing code (`Camera`,
tracing.rs; ray generation and the image-driver fields are out of the
claims' scope and omitted). -/
structure Camera where
  path_depth : ℕ
  path_samples : ℕ
  max_trace_dist : ℚ

/-- A top-level scene object, embedded by its `intersect_ray` behaviour
(the `Arc<dyn Intersectable>` trait object of `Scene::objects`). -/
def SceneObject : Type := Ray → ℚ → ℚ → Option RayHit

/-- Embedding of `Scene` (tracing.rs): camera plus the ordered top-level object list
(the debug-only phong point light and ambient term are not part of the
claims and are omitted). -/
structure Scene where
  camera : Camera
  objects : List SceneObject

/-- The accumulator loop of `Scene::intersect_ray` (tracing.rs lines
327-346): fold over the objects keeping the strictly closest hit
(`hit.distance < current_best.distance`), so the first object wins ties.
Generic in the object type so that the same brute-force scan can run
over trait objects (`Scene::objects`) or over a plain list of
primitives. -/
def linearScanAux {α : Type} (hit : α → Option RayHit) :
    List α → Option RayHit → Option RayHit
  | [], best => best
  | o :: os, best =>
    match hit o with
    | some h =>
      linearScanAux hit os
        (match best with
         | none => some h
         | some cur => if h.distance < cur.distance then some h else some cur)
    | none => linearScanAux hit os best

/-- Brute-force linear scan over a list of objects keeping the strictly
closest hit (the body of `Scene::intersect_ray`). -/
def linearScan {α : Type} (hit : α → Option RayHit) (objs : List α) :
    Option RayHit :=
  linearScanAux hit objs none

/-- Embedding of `Scene::intersect_ray` (tracing.rs lines 327-346). -/
def Scene.intersect_ray (s : Scene) (ray : Ray) (t_min t_max : ℚ) : Option RayHit :=
  linearScan (fun o => o ray t_min t_max) s.objects

/-- Embedding of `Scene::background_color` (tracing.rs lines 266-274): a zero-radiance
black void, independent of the direction. -/
def Scene.background_color (_v : Vec3) : Vec3 := ⟨0, 0, 0⟩

/-- The material capability consumed by the integrator (tracing.rs uses
`hit.material.scatter(&hit, ray)` and `hit.material.emission()`;
materials.rs is outside the embedded core).  `scatter` takes the sample
index so that the independent random draw of each loop iteration can be
modelled deterministically. -/
structure MatEnv where
  scatter : ℕ → RayHit → Ray → ℕ → Ray × Vec3 × ℚ
  emission : ℕ → Vec3

/-- Embedding of Rust `x.clamp(lo, hi)`. -/
def clampQ (x lo hi : ℚ) : ℚ := Min.min (Max.max x lo) hi

/-- The `for _i in 0..path_samples` accumulation loop of
`Scene::shade_ray`: sum of `f 0 + f 1 + ... + f (n-1)`. -/
def sampleSum (f : ℕ → Vec3) : ℕ → Vec3
  | 0 => 0
  | n + 1 => sampleSum f n + f n

/-- Embedding of `Scene::shade_ray` (tracing.rs lines 300-324) with the recursion
measure `path_depth - depth` made explicit as the structural `fuel`
argument (the Rust recursion terminates because `depth` strictly
increases toward `path_depth`; `Scene.shade_ray` below instantiates
`fuel := path_depth - depth`, and the fuel-irrelevance theorem for claim
C4 shows any fuel of at least `path_depth - depth` computes the same
color, so the fuel-0 branch is exactly the Rust terminal guard). -/
def shadeGo (s : Scene) (env : MatEnv) : ℕ → Ray → ℕ → Vec3
  | 0, ray, _ => Scene.background_color ray.direction
  | fuel + 1, ray, depth =>
    if s.camera.path_depth ≤ depth then Scene.background_color ray.direction
    else
      match s.intersect_ray ray (1 / 1000) s.camera.max_trace_dist with
      | none => Scene.background_color ray.direction
      | some hit =>
        let integral := sampleSum (fun i =>
          let sc := env.scatter hit.material hit ray i
          let dot_term :=
            if 0 < hit.normal.dot hit.normal
            then clampQ |sc.1.direction.dot hit.normal| 0 1
            else 1
          let incoming := shadeGo s env fuel sc.1 (depth + 1)
          (dot_term • (sc.2.1.mulElementWise incoming)).divScalar sc.2.2)
          s.camera.path_samples
        env.emission hit.material + integral.divScalar (s.camera.path_samples : ℚ)

/-- Embedding of `Scene::shade_ray`: the recursion above at its exact measure. -/
def Scene.shade_ray (s : Scene) (env : MatEnv) (ray : Ray) (depth : ℕ) : Vec3 :=
  shadeGo s env (s.camera.path_depth - depth) ray depth

/-! ### The Möller–Trumbore test as a filtered candidate

`mtIntersect` is `mtCand` filtered by the `[t_min, t_max]` interval:
the candidate (denominator, barycentric and distance computation) does
not depend on the query interval, only the final rejection does. -/

theorem mt_eq_cand (a b c : Vec3) (m : ℕ) (ray : Ray) (lo hi : ℚ) :
    mtIntersect a b c m ray lo hi
      = (mtCand a b c m ray).bind
          (fun h => if h.distance < lo ∨ hi < h.distance then none else some h) := by
  unfold mtIntersect mtCand
  dsimp only
  split_ifs <;> simp_all

theorem mt_some_iff (a b c : Vec3) (m : ℕ) (ray : Ray) (lo hi : ℚ) (h : RayHit) :
    mtIntersect a b c m ray lo hi = some h
      ↔ mtCand a b c m ray = some h ∧ lo ≤ h.distance ∧ h.distance ≤ hi := by
  rw [mt_eq_cand]
  cases hc : mtCand a b c m ray with
  | none => simp
  | some h0 =>
    simp only [Option.some_bind]
    by_cases hin : h0.distance < lo ∨ hi < h0.distance
    · rw [if_pos hin]
      constructor
      · intro hx
        exact Option.noConfusion hx
      · rintro ⟨heq, h1, h2⟩
        injection heq with heq'
        subst heq'
        rcases hin with hin | hin
        · exact absurd h1 (not_le.2 hin)
        · exact absurd h2 (not_le.2 hin)
    · rw [if_neg hin]
      push_neg at hin
      constructor
      · intro hx
        injection hx with hx'
        subst hx'
        exact ⟨rfl, hin.1, hin.2⟩
      · rintro ⟨heq, -, -⟩
        exact heq

theorem IndexedTriangle.some_iff (tri : IndexedTriangle) (ray : Ray) (lo hi : ℚ)
    (h : RayHit) :
    tri.intersect_ray ray lo hi = some h
      ↔ tri.cand ray = some h ∧ lo ≤ h.distance ∧ h.distance ≤ hi := by
  unfold IndexedTriangle.intersect_ray IndexedTriangle.cand
  exact mt_some_iff _ _ _ _ _ _ _ _

/-- Widening the upper bound of the query interval preserves a hit. -/
theorem IndexedTriangle.some_widen {tri : IndexedTriangle} {ray : Ray} {lo hi hi' : ℚ}
    {h : RayHit} (hs : tri.intersect_ray ray lo hi = some h) (hle : hi ≤ hi') :
    tri.intersect_ray ray lo hi' = some h := by
  rw [IndexedTriangle.some_iff] at hs ⊢
  exact ⟨hs.1, hs.2.1, hs.2.2.trans hle⟩

/-! ### Minimum of an optional list of distances -/

/-- Minimum combination of two optional values (`none` = no value). -/
def optMin : Option ℚ → Option ℚ → Option ℚ
  | none, b => b
  | some x, none => some x
  | some x, some y => some (Min.min x y)

/-- Minimum of a list of rationals, `none` on the empty list. -/
def minDist? : List ℚ → Option ℚ
  | [] => none
  | x :: xs => optMin (some x) (minDist? xs)

theorem optMin_none_right (a : Option ℚ) : optMin a none = a := by
  cases a <;> rfl

theorem optMin_some_some (x y : ℚ) : optMin (some x) (some y) = some (Min.min x y) := rfl

theorem optMin_some_optMin (x y : ℚ) (r : Option ℚ) :
    optMin (some x) (optMin (some y) r) = optMin (some (Min.min x y)) r := by
  cases r <;> simp [optMin, min_assoc]

theorem minDist?_eq_none_iff (l : List ℚ) : minDist? l = none ↔ l = [] := by
  cases l with
  | nil => simp [minDist?]
  | cons x xs =>
    simp only [minDist?]
    cases minDist? xs <;> simp [optMin]

theorem minDist?_mem : ∀ {l : List ℚ} {d : ℚ}, minDist? l = some d → d ∈ l := by
  intro l
  induction l with
  | nil => intro d hd; simp [minDist?] at hd
  | cons x xs ih =>
    intro d hd
    simp only [minDist?] at hd
    cases hx : minDist? xs with
    | none =>
      rw [hx, optMin_none_right] at hd
      injection hd with hd'
      simp [hd'.symm]
    | some m =>
      rw [hx, optMin_some_some] at hd
      injection hd with hd'
      rcases min_cases x m with ⟨hmin, _⟩ | ⟨hmin, _⟩
      · rw [hmin] at hd'
        simp [hd'.symm]
      · rw [hmin] at hd'
        exact List.mem_cons_of_mem _ (hd' ▸ ih hx)

theorem minDist?_le : ∀ {l : List ℚ} {d : ℚ}, minDist? l = some d → ∀ x ∈ l, d ≤ x := by
  intro l
  induction l with
  | nil => intro d _ x hx; simp at hx
  | cons x xs ih =>
    intro d hd
    simp only [minDist?] at hd
    cases hx : minDist? xs with
    | none =>
      rw [hx, optMin_none_right] at hd
      injection hd with hd'
      subst hd'
      intro y hy
      rcases List.mem_cons.1 hy with rfl | hy'
      · exact le_refl _
      · rw [(minDist?_eq_none_iff xs).1 hx] at hy'
        cases hy'
    | some m =>
      rw [hx, optMin_some_some] at hd
      injection hd with hd'
      subst hd'
      intro y hy
      rcases List.mem_cons.1 hy with rfl | hy'
      · exact min_le_left _ _
      · exact le_trans (min_le_right _ _) (ih hx y hy')

/-! ### Characterising the brute-force linear scan -/

theorem linearScanAux_dist {α : Type} (hit : α → Option RayHit) (l : List α) :
    ∀ best : Option RayHit,
      (linearScanAux hit l best).map RayHit.distance
        = optMin (best.map RayHit.distance)
            (minDist? (l.filterMap fun o => (hit o).map RayHit.distance)) := by
  induction l with
  | nil =>
    intro best
    cases best <;> simp [linearScanAux, minDist?, optMin]
  | cons o os ih =>
    intro best
    cases ho : hit o with
    | none =>
      simp only [linearScanAux, ho, List.filterMap_cons, Option.map_none]
      exact ih best
    | some h =>
      cases best with
      | none =>
        simp only [linearScanAux, ho, List.filterMap_cons, Option.map_some]
        rw [ih (some h)]
        rfl
      | some cur =>
        simp only [linearScanAux, ho, List.filterMap_cons, Option.map_some]
        by_cases hlt : h.distance < cur.distance
        · rw [if_pos hlt, ih (some h)]
          dsimp only [Option.map]
          simp only [minDist?]
          rw [optMin_some_optMin]
          rw [min_eq_right (le_of_lt hlt)]
        · rw [if_neg hlt, ih (some cur)]
          dsimp only [Option.map]
          simp only [minDist?]
          rw [optMin_some_optMin]
          rw [min_eq_left (not_lt.1 hlt)]

theorem linearScan_dist {α : Type} (hit : α → Option RayHit) (l : List α) :
    (linearScan hit l).map RayHit.distance
      = minDist? (l.filterMap fun o => (hit o).map RayHit.distance) := by
  unfold linearScan
  rw [linearScanAux_dist]
  rfl

/-- Unfolding the scan one object at a time: the head hit is kept unless a
later hit is strictly closer. -/
theorem linearScan_cons {α : Type} (hit : α → Option RayHit) (o : α) (os : List α) :
    linearScan hit (o :: os)
      = match hit o with
        | none => linearScan hit os
        | some h =>
          match linearScan hit os with
          | none => some h
          | some h' => if h'.distance < h.distance then some h' else some h := by
  have aux : ∀ (l : List α) (b : RayHit),
      linearScanAux hit l (some b)
        = match linearScan hit l with
          | none => some b
          | some h' => if h'.distance < b.distance then some h' else some b := by
    intro l
    induction l with
    | nil => intro b; rfl
    | cons p ps ih =>
      intro b
      cases hp : hit p with
      | none =>
        have hstep : linearScanAux hit (p :: ps) (some b) = linearScanAux hit ps (some b) := by
          simp only [linearScanAux, hp]
        have hhead : linearScan hit (p :: ps) = linearScan hit ps := by
          simp only [linearScan, linearScanAux, hp]
        rw [hstep, hhead, ih b]
      | some h =>
        have hstep : linearScanAux hit (p :: ps) (some b)
            = linearScanAux hit ps
                (if h.distance < b.distance then some h else some b) := by
          simp only [linearScanAux, hp]
        have hhead : linearScan hit (p :: ps) = linearScanAux hit ps (some h) := by
          simp only [linearScan, linearScanAux, hp]
        rw [hstep, hhead, ih h]
        by_cases hlt : h.distance < b.distance
        · rw [if_pos hlt, ih h]
          cases hps : linearScan hit ps with
          | none => simp [hlt]
          | some hq =>
            by_cases h1 : hq.distance < h.distance
            · simp [h1, lt_trans h1 hlt]
            · simp [h1, hlt]
        · rw [if_neg hlt, ih b]
          cases hps : linearScan hit ps with
          | none => simp [hlt]
          | some hq =>
            by_cases h1 : hq.distance < b.distance
            · simp [h1, lt_of_lt_of_le h1 (not_lt.1 hlt)]
            · by_cases h2 : hq.distance < h.distance
              · simp [h1, h2]
              · simp [h1, h2, hlt]
  cases ho : hit o with
  | none =>
    simp only [linearScan, linearScanAux, ho]
  | some h =>
    simp only [linearScan, linearScanAux, ho]
    exact aux os h

/-! ### BVH traversal as a tightening scan over the leaves

During `BVHNode::intersect_ray` every box/primitive query uses the same
lower bound `t_min`; only the upper bound tightens (to the best hit's
distance).  `bvhScanAux` is that tightening loop written over a flat
list of primitives: each primitive is queried over `[t_min, best
distance so far]` (initially `[t_min, t_max]`) and any returned hit
replaces the running best (so on an exact tie the later primitive
wins, exactly as the traversal's right child replaces the left hit). -/
def bvhScanAux (ray : Ray) (t_min : ℚ) :
    List IndexedTriangle → Option RayHit → ℚ → Option RayHit
  | [], best, _ => best
  | p :: ps, best, t_max =>
    match p.intersect_ray ray t_min
        (match best with | none => t_max | some b => b.distance) with
    | some h => bvhScanAux ray t_min ps (some h) t_max
    | none => bvhScanAux ray t_min ps best t_max

/-- The tightening scan from an empty accumulator. -/
def bvhScan (ray : Ray) (t_min : ℚ) (ps : List IndexedTriangle) (t_max : ℚ) :
    Option RayHit :=
  bvhScanAux ray t_min ps none t_max

/-- The distances of the hits of `ps` over the fixed interval
`[t_min, t_max]`. -/
def hitsIn (ray : Ray) (t_min t_max : ℚ) (ps : List IndexedTriangle) : List ℚ :=
  ps.filterMap fun p => (p.intersect_ray ray t_min t_max).map RayHit.distance

theorem bvhScanAux_cons_none (ray : Ray) (t_min : ℚ) (p : IndexedTriangle)
    (ps : List IndexedTriangle) (t_max : ℚ) :
    bvhScanAux ray t_min (p :: ps) none t_max
      = match p.intersect_ray ray t_min t_max with
        | some h => bvhScanAux ray t_min ps (some h) t_max
        | none => bvhScanAux ray t_min ps none t_max := rfl

theorem bvhScanAux_cons_some (ray : Ray) (t_min : ℚ) (p : IndexedTriangle)
    (ps : List IndexedTriangle) (b : RayHit) (t_max : ℚ) :
    bvhScanAux ray t_min (p :: ps) (some b) t_max
      = match p.intersect_ray ray t_min b.distance with
        | some h => bvhScanAux ray t_min ps (some h) t_max
        | none => bvhScanAux ray t_min ps (some b) t_max := rfl

theorem bvhScanAux_append (ray : Ray) (t_min : ℚ) (xs : List IndexedTriangle) :
    ∀ (ys : List IndexedTriangle) (best : Option RayHit) (t_max : ℚ),
      bvhScanAux ray t_min (xs ++ ys) best t_max
        = bvhScanAux ray t_min ys (bvhScanAux ray t_min xs best t_max) t_max := by
  induction xs with
  | nil => intro ys best t_max; rfl
  | cons p ps ih =>
    intro ys best t_max
    cases best with
    | none =>
      rw [List.cons_append, bvhScanAux_cons_none, bvhScanAux_cons_none]
      cases hp : p.intersect_ray ray t_min t_max with
      | some h => exact ih ys (some h) t_max
      | none => exact ih ys none t_max
    | some b =>
      rw [List.cons_append, bvhScanAux_cons_some, bvhScanAux_cons_some]
      cases hp : p.intersect_ray ray t_min b.distance with
      | some h => exact ih ys (some h) t_max
      | none => exact ih ys (some b) t_max

/-- Once the accumulator holds a hit `hb`, the static upper bound is
never consulted again: the scan behaves like a fresh scan over
`[t_min, hb.distance]`, falling back to `hb` when that finds nothing. -/
theorem bvhScanAux_some (ray : Ray) (t_min : ℚ) :
    ∀ (ys : List IndexedTriangle) (hb : RayHit) (t_max : ℚ),
      bvhScanAux ray t_min ys (some hb) t_max
        = match bvhScan ray t_min ys hb.distance with
          | some hr => some hr
          | none => some hb := by
  intro ys
  induction ys with
  | nil => intro hb t_max; rfl
  | cons p ps ih =>
    intro hb t_max
    rw [bvhScanAux_cons_some]
    have hhead : bvhScan ray t_min (p :: ps) hb.distance
        = match p.intersect_ray ray t_min hb.distance with
          | some h => bvhScanAux ray t_min ps (some h) hb.distance
          | none => bvhScanAux ray t_min ps none hb.distance := by
      rw [bvhScan, bvhScanAux_cons_none]
    cases hp : p.intersect_ray ray t_min hb.distance with
    | some h =>
      rw [hhead, hp]
      dsimp only
      rw [ih h t_max, ih h hb.distance]
      cases bvhScan ray t_min ps h.distance <;> rfl
    | none =>
      rw [hhead, hp]
      dsimp only
      rw [ih hb t_max]
      rfl

theorem bvhScanAux_dist (ray : Ray) (t_min : ℚ) :
    ∀ (ps : List IndexedTriangle) (best : Option RayHit) (t_max : ℚ),
      (∀ b, best = some b → t_min ≤ b.distance ∧ b.distance ≤ t_max) →
      (bvhScanAux ray t_min ps best t_max).map RayHit.distance
        = optMin (best.map RayHit.distance)
            (minDist? (hitsIn ray t_min t_max ps)) := by
  intro ps
  induction ps with
  | nil =>
    intro best t_max _
    cases best <;> rfl
  | cons p ps ih =>
    intro best t_max hbest
    cases best with
    | none =>
      rw [bvhScanAux_cons_none]
      cases hp : p.intersect_ray ray t_min t_max with
      | some h =>
        dsimp only
        have hc := (IndexedTriangle.some_iff p ray t_min t_max h).1 hp
        rw [ih (some h) t_max (fun b hb => by
          injection hb with hb'
          subst hb'
          exact ⟨hc.2.1, hc.2.2⟩)]
        simp only [hitsIn, List.filterMap_cons, hp]
        dsimp only [Option.map]
        simp only [minDist?]
        rfl
      | none =>
        dsimp only
        rw [ih none t_max (fun b hb => by cases hb)]
        simp only [hitsIn, List.filterMap_cons, hp]
        rfl
    | some bb =>
      have hbb := hbest bb rfl
      rw [bvhScanAux_cons_some]
      cases hp : p.intersect_ray ray t_min bb.distance with
      | some h =>
        dsimp only
        have hc := (IndexedTriangle.some_iff p ray t_min bb.distance h).1 hp
        have hwide : p.intersect_ray ray t_min t_max = some h :=
          IndexedTriangle.some_widen hp hbb.2
        rw [ih (some h) t_max (fun b hb => by
          injection hb with hb'
          subst hb'
          exact ⟨hc.2.1, le_trans hc.2.2 hbb.2⟩)]
        simp only [hitsIn, List.filterMap_cons, hwide]
        dsimp only [Option.map]
        simp only [minDist?]
        rw [optMin_some_optMin, min_eq_right hc.2.2]
      | none =>
        dsimp only
        rw [ih (some bb) t_max hbest]
        cases hp2 : p.intersect_ray ray t_min t_max with
        | none =>
          simp only [hitsIn, List.filterMap_cons, hp2]
          rfl
        | some h =>
          have hc2 := (IndexedTriangle.some_iff p ray t_min t_max h).1 hp2
          have hgt : bb.distance < h.distance := by
            by_contra hle
            push_neg at hle
            have hagain : p.intersect_ray ray t_min bb.distance = some h :=
              (IndexedTriangle.some_iff p ray t_min bb.distance h).2
                ⟨hc2.1, hc2.2.1, hle⟩
            rw [hagain] at hp
            cases hp
          simp only [hitsIn, List.filterMap_cons, hp2]
          dsimp only [Option.map]
          simp only [minDist?]
          rw [optMin_some_optMin, min_eq_left (le_of_lt hgt)]

/-- Any hit returned by the tightening scan is an actual hit of one of
the scanned primitives over the full `[t_min, t_max]` interval (or was
the initial accumulator). -/
theorem bvhScanAux_mem (ray : Ray) (t_min : ℚ) :
    ∀ (ps : List IndexedTriangle) (best : Option RayHit) (t_max : ℚ),
      (∀ b, best = some b → b.distance ≤ t_max) →
      ∀ h, bvhScanAux ray t_min ps best t_max = some h →
        best = some h ∨ ∃ p ∈ ps, p.intersect_ray ray t_min t_max = some h := by
  intro ps
  induction ps with
  | nil =>
    intro best t_max _ h hres
    exact Or.inl hres
  | cons p ps ih =>
    intro best t_max hbest h hres
    cases best with
    | none =>
      rw [bvhScanAux_cons_none] at hres
      cases hp : p.intersect_ray ray t_min t_max with
      | some h0 =>
        rw [hp] at hres
        dsimp only at hres
        have hb0 := (IndexedTriangle.some_iff p ray t_min t_max h0).1 hp
        rcases ih (some h0) t_max
            (fun b hb => by injection hb with hb'; subst hb'; exact hb0.2.2) h hres with
          heq | ⟨q, hq, hqhit⟩
        · injection heq with heq'
          subst heq'
          exact Or.inr ⟨p, List.mem_cons_self _ _, hp⟩
        · exact Or.inr ⟨q, List.mem_cons_of_mem _ hq, hqhit⟩
      | none =>
        rw [hp] at hres
        dsimp only at hres
        rcases ih none t_max (fun b hb => by cases hb) h hres with heq | ⟨q, hq, hqhit⟩
        · cases heq
        · exact Or.inr ⟨q, List.mem_cons_of_mem _ hq, hqhit⟩
    | some bb =>
      have hbb := hbest bb rfl
      rw [bvhScanAux_cons_some] at hres
      cases hp : p.intersect_ray ray t_min bb.distance with
      | some h0 =>
        rw [hp] at hres
        dsimp only at hres
        have hb0 := (IndexedTriangle.some_iff p ray t_min bb.distance h0).1 hp
        have hwide : p.intersect_ray ray t_min t_max = some h0 :=
          IndexedTriangle.some_widen hp hbb
        rcases ih (some h0) t_max
            (fun b hb => by injection hb with hb'; subst hb'; exact le_trans hb0.2.2 hbb)
            h hres with heq | ⟨q, hq, hqhit⟩
        · injection heq with heq'
          subst heq'
          exact Or.inr ⟨p, List.mem_cons_self _ _, hwide⟩
        · exact Or.inr ⟨q, List.mem_cons_of_mem _ hq, hqhit⟩
      | none =>
        rw [hp] at hres
        dsimp only at hres
        rcases ih (some bb) t_max hbest h hres with heq | ⟨q, hq, hqhit⟩
        · exact Or.inl heq
        · exact Or.inr ⟨q, List.mem_cons_of_mem _ hq, hqhit⟩

/-- Bounds on a hit returned by the tightening scan. -/
theorem bvhScan_bound (ray : Ray) (t_min : ℚ) (ps : List IndexedTriangle) (t_max : ℚ)
    (h : RayHit) (hres : bvhScan ray t_min ps t_max = some h) :
    t_min ≤ h.distance ∧ h.distance ≤ t_max := by
  rcases bvhScanAux_mem ray t_min ps none t_max (fun b hb => by cases hb) h hres with
    heq | ⟨p, _, hphit⟩
  · cases heq
  · have := (IndexedTriangle.some_iff p ray t_min t_max h).1 hphit
    exact ⟨this.2.1, this.2.2⟩

/-! ### The slab test is monotone in its upper bound -/

/-- The entry distance of one slab axis (after the negative-direction
swap). -/
def slabLo (b : AABB) (ray : Ray) (ax : ℕ) : ℚ :=
  if (1 / ray.direction.nth ax) < 0
  then (b.max.nth ax - ray.origin.nth ax) * (1 / ray.direction.nth ax)
  else (b.min.nth ax - ray.origin.nth ax) * (1 / ray.direction.nth ax)

/-- The exit distance of one slab axis (after the negative-direction
swap). -/
def slabHi (b : AABB) (ray : Ray) (ax : ℕ) : ℚ :=
  if (1 / ray.direction.nth ax) < 0
  then (b.min.nth ax - ray.origin.nth ax) * (1 / ray.direction.nth ax)
  else (b.max.nth ax - ray.origin.nth ax) * (1 / ray.direction.nth ax)

theorem slab_cons (b : AABB) (ray : Ray) (ax : ℕ) (rest : List ℕ) (tmin tmax : ℚ) :
    AABB.slab b ray (ax :: rest) tmin tmax
      = if Min.min (slabHi b ray ax) tmax ≤ Max.max (slabLo b ray ax) tmin then false
        else AABB.slab b ray rest (Max.max (slabLo b ray ax) tmin)
              (Min.min (slabHi b ray ax) tmax) := by
  show (let invD := 1 / ray.direction.nth ax
        let t0 := (b.min.nth ax - ray.origin.nth ax) * invD
        let t1 := (b.max.nth ax - ray.origin.nth ax) * invD
        let t0s := if invD < 0 then t1 else t0
        let t1s := if invD < 0 then t0 else t1
        let tmin' := Max.max t0s tmin
        let tmax' := Min.min t1s tmax
        if tmax' ≤ tmin' then false else AABB.slab b ray rest tmin' tmax') = _
  dsimp only
  by_cases hneg : (1 / ray.direction.nth ax) < 0 <;>
    simp only [slabLo, slabHi, if_pos, if_neg, hneg, if_true, if_false, ite_true, ite_false]

/-- If the slab test accepts an interval, it accepts every interval with
the same lower bound and a larger upper bound. -/
theorem slab_mono (b : AABB) (ray : Ray) :
    ∀ (axes : List ℕ) (tmin tmax tmax' : ℚ),
      AABB.slab b ray axes tmin tmax = true → tmax ≤ tmax' →
      AABB.slab b ray axes tmin tmax' = true := by
  intro axes
  induction axes with
  | nil => intro tmin tmax tmax' _ _; rfl
  | cons ax rest ih =>
    intro tmin tmax tmax' hs hle
    rw [slab_cons] at hs ⊢
    by_cases hc : Min.min (slabHi b ray ax) tmax ≤ Max.max (slabLo b ray ax) tmin
    · rw [if_pos hc] at hs
      cases hs
    · rw [if_neg hc] at hs
      have hminle : Min.min (slabHi b ray ax) tmax ≤ Min.min (slabHi b ray ax) tmax' :=
        min_le_min (le_refl _) hle
      have hc' : ¬ Min.min (slabHi b ray ax) tmax' ≤ Max.max (slabLo b ray ax) tmin := by
        intro hcon
        exact hc (le_trans hminle hcon)
      rw [if_neg hc']
      exact ih _ _ _ hs hminle

theorem aabb_isSome (b : AABB) (ray : Ray) (t_min t_max : ℚ) :
    (AABB.intersect_ray b ray t_min t_max).isSome
      = AABB.slab b ray [0, 1, 2] t_min t_max := by
  unfold AABB.intersect_ray
  by_cases hs : AABB.slab b ray [0, 1, 2] t_min t_max <;> simp [hs]

/-! ### Conservative box tests -/

/-- The interior box tests of a BVH are conservative for `ray` over
`[t_min, t_max]`: whenever a primitive below an interior node has a
Möller–Trumbore candidate at distance `t ∈ [t_min, t_max]`, that node's
box accepts the interval `[t_min, t]` (and hence by `slab_mono` every
larger interval the traversal can query).  The counterexample below
shows the code's box test violates this for boxes that are flat along
an axis, which is exactly when BVH traversal loses hits. -/
def conservB (ray : Ray) (t_min t_max : ℚ) : BVHNode → Bool
  | .leaf _ _ => true
  | .node box l r =>
    ((l.leaves ++ r.leaves).all fun p =>
      match p.cand ray with
      | none => true
      | some h =>
        if t_min ≤ h.distance ∧ h.distance ≤ t_max
        then AABB.slab box ray [0, 1, 2] t_min h.distance
        else true)
    && conservB ray t_min t_max l && conservB ray t_min t_max r

theorem bvh_leaf_eq (box : AABB) (p : IndexedTriangle) (ray : Ray) (t_min t_max : ℚ) :
    (BVHNode.leaf box p).intersect_ray ray t_min t_max
      = p.intersect_ray ray t_min t_max := rfl

theorem bvh_node_eq (box : AABB) (l r : BVHNode) (ray : Ray) (t_min t_max : ℚ) :
    (BVHNode.node box l r).intersect_ray ray t_min t_max
      = if (box.intersect_ray ray t_min t_max).isSome then
          match l.intersect_ray ray t_min t_max with
          | some hitL =>
            match r.intersect_ray ray t_min hitL.distance with
            | some hitR => some hitR
            | none => some hitL
          | none => r.intersect_ray ray t_min t_max
        else none := rfl

/-- Under conservative box tests the BVH traversal computes exactly the
tightening scan over its leaves, for every upper bound `hi ≤ t_max`. -/
theorem bvh_eq_scan (ray : Ray) (t_min t_max : ℚ) :
    ∀ t : BVHNode, conservB ray t_min t_max t = true →
      ∀ hi, hi ≤ t_max →
        t.intersect_ray ray t_min hi = bvhScan ray t_min t.leaves hi := by
  intro t
  induction t with
  | leaf box p =>
    intro _ hi _
    rw [bvh_leaf_eq]
    show _ = bvhScanAux ray t_min [p] none hi
    rw [bvhScanAux_cons_none]
    cases hp : p.intersect_ray ray t_min hi <;> rfl
  | node box l r ihl ihr =>
    intro hc hi hile
    have hc' := hc
    simp only [conservB, Bool.and_eq_true] at hc'
    obtain ⟨⟨hall, hcl⟩, hcr⟩ := hc'
    have hleaves : BVHNode.leaves (BVHNode.node box l r) = l.leaves ++ r.leaves := rfl
    rw [bvh_node_eq, aabb_isSome, hleaves]
    by_cases hs : AABB.slab box ray [0, 1, 2] t_min hi = true
    · rw [if_pos hs]
      rw [ihl hcl hi hile]
      have happ : bvhScan ray t_min (l.leaves ++ r.leaves) hi
          = bvhScanAux ray t_min r.leaves (bvhScan ray t_min l.leaves hi) hi :=
        bvhScanAux_append ray t_min l.leaves r.leaves none hi
      cases hL : bvhScan ray t_min l.leaves hi with
      | some hl =>
        dsimp only
        have hlb := bvhScan_bound ray t_min l.leaves hi hl hL
        rw [ihr hcr hl.distance (le_trans hlb.2 hile)]
        rw [happ, hL, bvhScanAux_some]
      | none =>
        dsimp only
        rw [ihr hcr hi hile]
        rw [happ, hL]
        rfl
    · have hsf : AABB.slab box ray [0, 1, 2] t_min hi = false := by
        cases hx : AABB.slab box ray [0, 1, 2] t_min hi
        · rfl
        · exact absurd hx hs
      rw [hsf]
      simp only [Bool.false_eq_true, if_false]
      have hnone : ∀ p ∈ l.leaves ++ r.leaves, p.intersect_ray ray t_min hi = none := by
        intro p hp
        cases hq : p.intersect_ray ray t_min hi with
        | none => rfl
        | some h =>
          exfalso
          have hqc := (IndexedTriangle.some_iff p ray t_min hi h).1 hq
          have hin : t_min ≤ h.distance ∧ h.distance ≤ t_max :=
            ⟨hqc.2.1, le_trans hqc.2.2 hile⟩
          have hpall := (List.all_eq_true.1 hall) p hp
          rw [hqc.1] at hpall
          dsimp only at hpall
          rw [if_pos hin] at hpall
          exact hs (slab_mono box ray _ t_min h.distance hi hpall hqc.2.2)
      have hempty : hitsIn ray t_min hi (l.leaves ++ r.leaves) = [] := by
        unfold hitsIn
        rw [List.filterMap_eq_nil_iff]
        intro p hp
        rw [hnone p hp]
        rfl
      have hdist := bvhScanAux_dist ray t_min (l.leaves ++ r.leaves) none hi
        (fun b hb => by cases hb)
      rw [hempty] at hdist
      have hmap : (bvhScan ray t_min (l.leaves ++ r.leaves) hi).map RayHit.distance
          = none := hdist
      cases hres : bvhScan ray t_min (l.leaves ++ r.leaves) hi with
      | none => rfl
      | some h =>
        rw [hres] at hmap
        exact absurd hmap (by simp)

/-- Claim C1 (amended): assuming the interior box tests are conservative
(`conservB`: every node's box accepts `[t_min, t]` for each candidate hit
distance `t ∈ [t_min, t_max]` of a primitive below it — by `slab_mono`
the box then accepts every interval the traversal can query there), BVH
traversal returns a hit at exactly the distance of the closest
brute-force hit of a linear scan over the same primitives (missing iff
the scan misses), and any hit it returns is a genuine hit of one of the
primitives over `[t_min, t_max]`.  Without the conservativeness
hypothesis the equivalence fails: see the counterexample, where the root
box of a BVH built over two coplanar triangles is flat along the z-axis,
so the slab test collapses its interval (`t_max <= t_min`) and rejects a
ray that brute force reports as a hit.  On an exact distance tie the two
sides can return different primitives' hits (the traversal keeps the
rightmost closest leaf, the scan the first object), so the records are
compared by distance. -/
theorem bvh_matches_scan_of_conservative (t : BVHNode) (ray : Ray) (t_min t_max : ℚ)
    (hcons : conservB ray t_min t_max t = true) :
    ((t.intersect_ray ray t_min t_max).map RayHit.distance
      = (linearScan (fun p => p.intersect_ray ray t_min t_max) t.leaves).map
          RayHit.distance)
    ∧ ((t.intersect_ray ray t_min t_max).isSome
      = (linearScan (fun p => p.intersect_ray ray t_min t_max) t.leaves).isSome)
    ∧ (∀ h, t.intersect_ray ray t_min t_max = some h →
        ∃ p ∈ t.leaves, p.intersect_ray ray t_min t_max = some h) := by
  have heq := bvh_eq_scan ray t_min t_max t hcons t_max (le_refl _)
  have hbvh : (t.intersect_ray ray t_min t_max).map RayHit.distance
      = minDist? (hitsIn ray t_min t_max t.leaves) := by
    rw [heq]
    exact bvhScanAux_dist ray t_min t.leaves none t_max (fun b hb => by cases hb)
  have hlin : (linearScan (fun p => p.intersect_ray ray t_min t_max) t.leaves).map
      RayHit.distance = minDist? (hitsIn ray t_min t_max t.leaves) := by
    rw [linearScan_dist]
    rfl
  have hmap : (t.intersect_ray ray t_min t_max).map RayHit.distance
      = (linearScan (fun p => p.intersect_ray ray t_min t_max) t.leaves).map
          RayHit.distance := by
    rw [hbvh, hlin]
  refine ⟨hmap, ?_, ?_⟩
  · cases hbv : t.intersect_ray ray t_min t_max with
    | none =>
      rw [hbv] at hmap
      cases hln : linearScan (fun p => p.intersect_ray ray t_min t_max) t.leaves with
      | none => rfl
      | some h => rw [hln] at hmap; exact absurd hmap.symm (by simp)
    | some h =>
      rw [hbv] at hmap
      cases hln : linearScan (fun p => p.intersect_ray ray t_min t_max) t.leaves with
      | none => rw [hln] at hmap; exact absurd hmap (by simp)
      | some h' => rfl
  · intro h hres
    rw [heq] at hres
    rcases bvhScanAux_mem ray t_min t.leaves none t_max (fun b hb => by cases hb) h hres
      with habs | hmem
    · cases habs
    · exact hmem

/-- Two coplanar triangles in the plane `z = 0` (a flat BVH box). -/
def bvhFlatMesh : Mesh := ⟨[0, 0, 0, 1, 0, 0, 0, 1, 0, 0, -1, 0], [0, 1, 2, 0, 1, 3]⟩

/-- A ray crossing the plane `z = 0` inside the first flat triangle. -/
def bvhFlatRay : Ray := ⟨⟨1/5, 1/5, 5⟩, ⟨1/100, 1/100, -1⟩⟩

/-- Counterexample to claim C1 as stated: over the two coplanar
triangles of `bvhFlatMesh`, the built BVH's root box is flat along the
z-axis, so the slab test's interval collapses (`t_max <= t_min`) and
`BVHNode::intersect_ray` returns no hit over `[0, 100]`, while the
brute-force linear scan over the same primitives finds the hit at
distance 5. -/
theorem bvh_flat_box_counterexample :
    BVHNode.intersect_ray (build_bvh bvhFlatMesh [2]) bvhFlatRay 0 100 = none
    ∧ (linearScan (fun p => p.intersect_ray bvhFlatRay 0 100)
        (build_bvh bvhFlatMesh [2]).leaves).map RayHit.distance = some 5 :=
  of_decide_eq_true (by with_unfolding_all rfl)

/-- Two parallel tilted triangles with full-dimensional boxes. -/
def bvhFatMesh : Mesh :=
  ⟨[0, 0, 0, 2, 0, 0, 0, 2, 1, 0, 0, 2, 2, 0, 2, 0, 2, 3], [0, 1, 2, 3, 4, 5]⟩

/-- A ray hitting both tilted triangles. -/
def bvhFatRay : Ray := ⟨⟨1/5, 1/5, 5⟩, ⟨1/100, 1/100, -1⟩⟩

theorem bvh_matches_scan_witness :
    conservB bvhFatRay 0 100 (build_bvh bvhFatMesh [0]) = true
    ∧ ((build_bvh bvhFatMesh [0]).intersect_ray bvhFatRay 0 100).map RayHit.distance
        = (linearScan (fun p => p.intersect_ray bvhFatRay 0 100)
            (build_bvh bvhFatMesh [0]).leaves).map RayHit.distance :=
  ⟨of_decide_eq_true (by with_unfolding_all rfl),
   (bvh_matches_scan_of_conservative (build_bvh bvhFatMesh [0]) bvhFatRay 0 100
     (of_decide_eq_true (by with_unfolding_all rfl))).1⟩

/-- Two triangles whose `min` coordinates are ordered against their mesh
order on every axis: triangle 0 sits at coordinates 10..11, triangle 1
at the origin, so any sort key puts triangle 1 first. -/
def bvhSortMesh : Mesh :=
  ⟨[10, 10, 10, 11, 10, 10, 10, 11, 10, 0, 0, 0, 1, 0, 0, 0, 1, 0], [0, 1, 2, 3, 4, 5]⟩

/-- Claim C2, failing part: `build_bvh_helper` sorts the segment but then
builds each leaf from `IndexedTriangle { idx: start, .. }` — the
triangle at mesh index `start`, not the sorted segment's element.  For
`bvhSortMesh`, whichever axis is drawn, the sorted order is
`[triangle 1, triangle 0]`, yet the left leaf (index range `[0, 1)`)
stores triangle 0 with triangle 0's box.  The leaf count and the
interior box = union-of-children invariants do hold (visible in the
explicit tree below, whose root box is the surrounding box of the two
leaf boxes). -/
theorem build_bvh_leaf_ignores_sorted_order :
    (build_bvh bvhSortMesh [0]
      = BVHNode.node ⟨⟨0, 0, 0⟩, ⟨11, 11, 10⟩⟩
          (BVHNode.leaf ⟨⟨10, 10, 10⟩, ⟨11, 11, 10⟩⟩ ⟨0, bvhSortMesh⟩)
          (BVHNode.leaf ⟨⟨0, 0, 0⟩, ⟨1, 1, 0⟩⟩ ⟨1, bvhSortMesh⟩))
    ∧ build_bvh bvhSortMesh [1] = build_bvh bvhSortMesh [0]
    ∧ build_bvh bvhSortMesh [2] = build_bvh bvhSortMesh [0]
    ∧ sortByKey (bvhSortKey 0) [⟨0, bvhSortMesh⟩, ⟨1, bvhSortMesh⟩]
        = [⟨1, bvhSortMesh⟩, ⟨0, bvhSortMesh⟩]
    ∧ sortByKey (bvhSortKey 1) [⟨0, bvhSortMesh⟩, ⟨1, bvhSortMesh⟩]
        = [⟨1, bvhSortMesh⟩, ⟨0, bvhSortMesh⟩]
    ∧ sortByKey (bvhSortKey 2) [⟨0, bvhSortMesh⟩, ⟨1, bvhSortMesh⟩]
        = [⟨1, bvhSortMesh⟩, ⟨0, bvhSortMesh⟩]
    ∧ bvhSortKey 0 ⟨1, bvhSortMesh⟩ < bvhSortKey 0 ⟨0, bvhSortMesh⟩
    ∧ (build_bvh bvhSortMesh [0]).leaves.length = 2
    ∧ (build_bvh bvhSortMesh [0]).box
        = AABB.aabb_surrounding
            (BVHNode.leaf ⟨⟨10, 10, 10⟩, ⟨11, 11, 10⟩⟩ ⟨0, bvhSortMesh⟩).box
            (BVHNode.leaf ⟨⟨0, 0, 0⟩, ⟨1, 1, 0⟩⟩ ⟨1, bvhSortMesh⟩).box :=
  of_decide_eq_true (by with_unfolding_all rfl)

/-! ### The scene-level linear scan (claim C3) -/

theorem linearScan_none_iff {α : Type} (hit : α → Option RayHit) (l : List α) :
    linearScan hit l = none ↔ ∀ o ∈ l, hit o = none := by
  induction l with
  | nil => simp [linearScan, linearScanAux]
  | cons o os ih =>
    rw [linearScan_cons]
    cases ho : hit o with
    | none =>
      simp only [List.forall_mem_cons, ho, true_and]
      exact ih
    | some h =>
      constructor
      · intro hres
        exfalso
        cases hos : linearScan hit os with
        | none => rw [hos] at hres; exact Option.noConfusion hres
        | some h' =>
          rw [hos] at hres
          dsimp only at hres
          by_cases hlt : h'.distance < h.distance
          · rw [if_pos hlt] at hres; exact Option.noConfusion hres
          · rw [if_neg hlt] at hres; exact Option.noConfusion hres
      · intro hallnone
        exact absurd ho (by rw [hallnone o (List.mem_cons_self _ _)]; intro hx; cases hx)

theorem linearScan_min {α : Type} (hit : α → Option RayHit) (l : List α) :
    ∀ h, linearScan hit l = some h →
      ∃ pre o post, l = pre ++ o :: post ∧ hit o = some h
        ∧ (∀ o' ∈ l, ∀ h', hit o' = some h' → h.distance ≤ h'.distance)
        ∧ (∀ o' ∈ pre, ∀ h', hit o' = some h' → h.distance < h'.distance) := by
  induction l with
  | nil =>
    intro h hres
    exact Option.noConfusion hres
  | cons o os ih =>
    intro h hres
    rw [linearScan_cons] at hres
    cases ho : hit o with
    | none =>
      rw [ho] at hres
      dsimp only at hres
      obtain ⟨pre, oo, post, hsplit, hhit, hmin, hpre⟩ := ih h hres
      refine ⟨o :: pre, oo, post, by rw [hsplit]; rfl, hhit, ?_, ?_⟩
      · intro o' ho' h' hh'
        rcases List.mem_cons.1 ho' with rfl | ho2
        · rw [ho] at hh'; exact Option.noConfusion hh'
        · exact hmin o' ho2 h' hh'
      · intro o' ho' h' hh'
        rcases List.mem_cons.1 ho' with rfl | ho2
        · rw [ho] at hh'; exact Option.noConfusion hh'
        · exact hpre o' ho2 h' hh'
    | some hh =>
      rw [ho] at hres
      dsimp only at hres
      cases hos : linearScan hit os with
      | none =>
        rw [hos] at hres
        dsimp only at hres
        injection hres with he
        subst he
        have hall := (linearScan_none_iff hit os).1 hos
        refine ⟨[], o, os, rfl, ho, ?_, by intro o' ho'; cases ho'⟩
        intro o' ho' h' hh'
        rcases List.mem_cons.1 ho' with rfl | ho2
        · rw [ho] at hh'
          injection hh' with he2
          subst he2
          exact le_refl _
        · rw [hall o' ho2] at hh'
          exact Option.noConfusion hh'
      | some h' =>
        rw [hos] at hres
        dsimp only at hres
        by_cases hlt : h'.distance < hh.distance
        · rw [if_pos hlt] at hres
          injection hres with he
          rw [he] at hos hlt
          obtain ⟨pre, oo, post, hsplit, hhit, hmin, hpre⟩ := ih h hos
          refine ⟨o :: pre, oo, post, by rw [hsplit]; rfl, hhit, ?_, ?_⟩
          · intro o' ho' h'' hh''
            rcases List.mem_cons.1 ho' with rfl | ho2
            · rw [ho] at hh''
              injection hh'' with he2
              subst he2
              exact le_of_lt hlt
            · exact hmin o' ho2 h'' hh''
          · intro o' ho' h'' hh''
            rcases List.mem_cons.1 ho' with rfl | ho2
            · rw [ho] at hh''
              injection hh'' with he2
              subst he2
              exact hlt
            · exact hpre o' ho2 h'' hh''
        · rw [if_neg hlt] at hres
          injection hres with he
          rw [he] at ho hlt
          obtain ⟨_, _, _, _, _, hmin, _⟩ := ih h' hos
          refine ⟨[], o, os, rfl, ho, ?_, by intro o' ho'; cases ho'⟩
          intro o' ho' h'' hh''
          rcases List.mem_cons.1 ho' with rfl | ho2
          · rw [ho] at hh''
            injection hh'' with he2
            exact le_of_eq (by rw [he2])
          · exact le_trans (not_lt.1 hlt) (hmin o' ho2 h'' hh'')

/-- Claim C3: `Scene::intersect_ray` is a linear scan over the top-level
objects returning the hit with the strictly smallest distance — `none`
iff no object hits, and any returned hit comes from an object all of
whose predecessors' hits (if any) are strictly farther, so on equal
distances the first-encountered object's hit is kept (strict `<`
comparison). -/
theorem scene_intersect_closest_first (s : Scene) (ray : Ray) (t_min t_max : ℚ) :
    (s.intersect_ray ray t_min t_max = none ↔ ∀ o ∈ s.objects, o ray t_min t_max = none)
    ∧ ∀ h, s.intersect_ray ray t_min t_max = some h →
        ∃ pre o post, s.objects = pre ++ o :: post ∧ o ray t_min t_max = some h
          ∧ (∀ o' ∈ s.objects, ∀ h', o' ray t_min t_max = some h' →
              h.distance ≤ h'.distance)
          ∧ (∀ o' ∈ pre, ∀ h', o' ray t_min t_max = some h' →
              h.distance < h'.distance) :=
  ⟨linearScan_none_iff (fun o : SceneObject => o ray t_min t_max) s.objects,
   fun h hres =>
     linearScan_min (fun o : SceneObject => o ray t_min t_max) s.objects h hres⟩

/-- A scene of three constant-hit objects: distances 5, 3, 3 — so the
second object wins (strictly smallest distance, tie with the third
broken toward the first encountered). -/
def sceneObjA : SceneObject := fun _ _ _ => some ⟨5, 0, 0, 1⟩

def sceneObjB : SceneObject := fun _ _ _ => some ⟨3, 0, 0, 2⟩

def sceneObjC : SceneObject := fun _ _ _ => some ⟨3, 0, 0, 3⟩

def sceneW : Scene := ⟨⟨1, 1, 100⟩, [sceneObjA, sceneObjB, sceneObjC]⟩

def sceneRayW : Ray := ⟨0, 0⟩

theorem scene_intersect_closest_first_witness :
    Scene.intersect_ray sceneW sceneRayW 0 100 = some ⟨3, 0, 0, 2⟩
    ∧ (∃ pre o post, sceneW.objects = pre ++ o :: post
        ∧ o sceneRayW 0 100 = some ⟨3, 0, 0, 2⟩
        ∧ (∀ o' ∈ sceneW.objects, ∀ h', o' sceneRayW 0 100 = some h' →
            (⟨3, 0, 0, 2⟩ : RayHit).distance ≤ h'.distance)
        ∧ (∀ o' ∈ pre, ∀ h', o' sceneRayW 0 100 = some h' →
            (⟨3, 0, 0, 2⟩ : RayHit).distance < h'.distance)) :=
  have hscan : Scene.intersect_ray sceneW sceneRayW 0 100 = some ⟨3, 0, 0, 2⟩ :=
    of_decide_eq_true (by with_unfolding_all rfl)
  ⟨hscan, (scene_intersect_closest_first sceneW sceneRayW 0 100).2 _ hscan⟩

/-! ### The path integrator (claim C4) -/

theorem shadeGo_zero (s : Scene) (env : MatEnv) (ray : Ray) (depth : ℕ) :
    shadeGo s env 0 ray depth = Scene.background_color ray.direction := rfl

theorem shadeGo_succ (s : Scene) (env : MatEnv) (g : ℕ) (ray : Ray) (depth : ℕ) :
    shadeGo s env (g + 1) ray depth
      = if s.camera.path_depth ≤ depth then Scene.background_color ray.direction
        else
          match s.intersect_ray ray (1 / 1000) s.camera.max_trace_dist with
          | none => Scene.background_color ray.direction
          | some hit =>
            env.emission hit.material +
              (sampleSum (fun i =>
                let sc := env.scatter hit.material hit ray i
                let dot_term :=
                  if 0 < hit.normal.dot hit.normal
                  then clampQ |sc.1.direction.dot hit.normal| 0 1
                  else 1
                let incoming := shadeGo s env g sc.1 (depth + 1)
                (dot_term • (sc.2.1.mulElementWise incoming)).divScalar sc.2.2)
                s.camera.path_samples).divScalar (s.camera.path_samples : ℚ) := rfl

/-- Any fuel of at least `path_depth - depth` computes the same color:
the recursion never needs more than `path_depth - depth` nested calls. -/
theorem shadeGo_fuel_irrel (s : Scene) (env : MatEnv) :
    ∀ (g g' : ℕ) (ray : Ray) (depth : ℕ),
      s.camera.path_depth - depth ≤ g → s.camera.path_depth - depth ≤ g' →
      shadeGo s env g ray depth = shadeGo s env g' ray depth := by
  intro g
  induction g with
  | zero =>
    intro g' ray depth hg hg'
    have hpd : s.camera.path_depth ≤ depth :=
      Nat.le_of_sub_eq_zero (Nat.le_zero.1 hg)
    cases g' with
    | zero => rfl
    | succ k' => rw [shadeGo_zero, shadeGo_succ, if_pos hpd]
  | succ k ih =>
    intro g' ray depth hg hg'
    by_cases hpd : s.camera.path_depth ≤ depth
    · cases g' with
      | zero => rw [shadeGo_zero, shadeGo_succ, if_pos hpd]
      | succ k' => rw [shadeGo_succ, shadeGo_succ, if_pos hpd, if_pos hpd]
    · have hlt : depth < s.camera.path_depth := not_le.1 hpd
      cases g' with
      | zero => exact absurd (Nat.le_of_sub_eq_zero (Nat.le_zero.1 hg')) hpd
      | succ k' =>
        rw [shadeGo_succ, shadeGo_succ, if_neg hpd, if_neg hpd]
        cases hint : s.intersect_ray ray (1 / 1000) s.camera.max_trace_dist with
        | none => rfl
        | some hit =>
          dsimp only
          have hfun : ∀ r : Ray, shadeGo s env k r (depth + 1)
              = shadeGo s env k' r (depth + 1) := fun r =>
            ih k' r (depth + 1) (by omega) (by omega)
          simp only [hfun]

/-- Claim C4: `Scene::shade_ray` returns the background color (zero
radiance) as soon as `depth >= path_depth`; its recursion is bounded by
`path_depth - depth` nested calls (any fuel of at least that bound
computes the same color as the function itself); and with
`path_depth = 0` it returns the background color for every ray and every
object list — in particular without consulting any object's
intersection. -/
theorem shade_ray_depth_bounded :
    (∀ (s : Scene) (env : MatEnv) (ray : Ray) (depth : ℕ),
        s.camera.path_depth ≤ depth →
        s.shade_ray env ray depth = Scene.background_color ray.direction)
    ∧ (∀ v : Vec3, Scene.background_color v = 0)
    ∧ (∀ (s : Scene) (env : MatEnv) (g : ℕ) (ray : Ray) (depth : ℕ),
        s.camera.path_depth - depth ≤ g →
        shadeGo s env g ray depth = s.shade_ray env ray depth)
    ∧ (∀ (cam : Camera) (objs : List SceneObject) (env : MatEnv) (ray : Ray),
        cam.path_depth = 0 →
        Scene.shade_ray ⟨cam, objs⟩ env ray 0 = Scene.background_color ray.direction) := by
  have hzero : ∀ (s : Scene) (env : MatEnv) (ray : Ray) (depth : ℕ),
      s.camera.path_depth ≤ depth →
      s.shade_ray env ray depth = Scene.background_color ray.direction := by
    intro s env ray depth hd
    unfold Scene.shade_ray
    rw [Nat.sub_eq_zero_of_le hd, shadeGo_zero]
  refine ⟨hzero, fun _ => rfl, ?_, ?_⟩
  · intro s env g ray depth hg
    unfold Scene.shade_ray
    exact shadeGo_fuel_irrel s env g (s.camera.path_depth - depth) ray depth hg (le_refl _)
  · intro cam objs env ray hcam
    exact hzero ⟨cam, objs⟩ env ray 0 (by rw [hcam])

def shadeObjW : SceneObject := fun _ _ _ => some ⟨1, 0, ⟨0, 0, 1⟩, 5⟩

def shadeSceneW : Scene := ⟨⟨1, 1, 100⟩, [shadeObjW]⟩

def shadeEnvW : MatEnv :=
  ⟨fun _ _ ray _ => (ray, ⟨1, 1, 1⟩, 1), fun m => if m = 5 then ⟨2, 3, 4⟩ else 0⟩

def shadeRayW : Ray := ⟨⟨0, 0, 5⟩, ⟨0, 0, -1⟩⟩

theorem shade_ray_depth_bounded_witness :
    Scene.shade_ray shadeSceneW shadeEnvW shadeRayW 5
      = Scene.background_color shadeRayW.direction
    ∧ shadeGo shadeSceneW shadeEnvW 9 shadeRayW 0
      = Scene.shade_ray shadeSceneW shadeEnvW shadeRayW 0
    ∧ Scene.shade_ray ⟨⟨0, 1, 100⟩, [shadeObjW]⟩ shadeEnvW shadeRayW 0
      = Scene.background_color shadeRayW.direction :=
  ⟨shade_ray_depth_bounded.1 shadeSceneW shadeEnvW shadeRayW 5 (by decide),
   shade_ray_depth_bounded.2.2.1 shadeSceneW shadeEnvW 9 shadeRayW 0 (by decide),
   shade_ray_depth_bounded.2.2.2 ⟨0, 1, 100⟩ [shadeObjW] shadeEnvW shadeRayW rfl⟩

/-! ### Möller–Trumbore soundness (claim C5) -/

theorem mt_eps_none (a b c : Vec3) (m : ℕ) (ray : Ray) (lo hi : ℚ)
    (heps : |mtDenom a b c ray| < mtEpsilon) :
    mtIntersect a b c m ray lo hi = none := by
  unfold mtDenom at heps
  unfold mtIntersect
  dsimp only
  rw [if_pos heps]

set_option maxHeartbeats 2000000 in
theorem mt_barycentric (a b c : Vec3) (m : ℕ) (ray : Ray) (lo hi : ℚ) (h : RayHit)
    (hres : mtIntersect a b c m ray lo hi = some h) :
    ∃ u v : ℚ, 0 ≤ u ∧ 0 ≤ v ∧ u + v ≤ 1
      ∧ h.hitpoint = a + u • (b - a) + v • (c - a) := by
  unfold mtIntersect at hres
  dsimp only at hres
  split_ifs at hres with h1 h2 h3 h4
  injection hres with he
  subst he
  push_neg at h3
  have hg : (b - a).dot (ray.direction.cross (c - a)) ≠ 0 := by
    intro h0
    rw [h0] at h1
    exact h1 (by norm_num [mtEpsilon])
  refine ⟨_, _, not_lt.1 h2, h3.1, h3.2, ?_⟩
  show ray.origin + _ • ray.direction = _
  obtain ⟨⟨ox, oy, oz⟩, ⟨dx, dy, dz⟩⟩ := ray
  obtain ⟨ax, ay, az⟩ := a
  obtain ⟨bx, by', bz⟩ := b
  obtain ⟨cx, cy, cz⟩ := c
  simp only [Vec3.sub_def, Vec3.add_def, Vec3.smul_def, Vec3.dot, Vec3.cross] at hg ⊢
  ext <;> field_simp <;> ring

/-- Claim C5: for plain and mesh-indexed triangles, any hit of the
Möller–Trumbore test carries barycentric coordinates `u, v ≥ 0` with
`u + v ≤ 1` whose reconstruction `a + u(b-a) + v(c-a)` equals the
returned hit point (exactly, in the rational model), and a ray whose
denominator is below the epsilon threshold `1e-4` in absolute value
(near-parallel to the plane) produces no hit. -/
theorem triangle_barycentric_hit :
    (∀ (tr : Triangle) (ray : Ray) (lo hi : ℚ) (h : RayHit),
        tr.intersect_ray ray lo hi = some h →
        ∃ u v : ℚ, 0 ≤ u ∧ 0 ≤ v ∧ u + v ≤ 1
          ∧ h.hitpoint = tr.a + u • (tr.b - tr.a) + v • (tr.c - tr.a))
    ∧ (∀ (it : IndexedTriangle) (ray : Ray) (lo hi : ℚ) (h : RayHit),
        it.intersect_ray ray lo hi = some h →
        ∃ u v : ℚ, 0 ≤ u ∧ 0 ≤ v ∧ u + v ≤ 1
          ∧ h.hitpoint = (it.mesh.getTriangle it.idx).1
              + u • ((it.mesh.getTriangle it.idx).2.1 - (it.mesh.getTriangle it.idx).1)
              + v • ((it.mesh.getTriangle it.idx).2.2 - (it.mesh.getTriangle it.idx).1))
    ∧ (∀ (tr : Triangle) (ray : Ray) (lo hi : ℚ),
        |mtDenom tr.a tr.b tr.c ray| < mtEpsilon →
        tr.intersect_ray ray lo hi = none)
    ∧ (∀ (it : IndexedTriangle) (ray : Ray) (lo hi : ℚ),
        |mtDenom (it.mesh.getTriangle it.idx).1 (it.mesh.getTriangle it.idx).2.1
            (it.mesh.getTriangle it.idx).2.2 ray| < mtEpsilon →
        it.intersect_ray ray lo hi = none) := by
  refine ⟨?_, ?_, ?_, ?_⟩
  · intro tr ray lo hi h hres
    exact mt_barycentric tr.a tr.b tr.c tr.material ray lo hi h hres
  · intro it ray lo hi h hres
    exact mt_barycentric _ _ _ 0 ray lo hi h hres
  · intro tr ray lo hi heps
    exact mt_eps_none tr.a tr.b tr.c tr.material ray lo hi heps
  · intro it ray lo hi heps
    exact mt_eps_none _ _ _ 0 ray lo hi heps

def triW : Triangle := ⟨⟨0, 0, 0⟩, ⟨1, 0, 0⟩, ⟨0, 1, 0⟩, 7⟩

def triRayW : Ray := ⟨⟨1/5, 1/5, 5⟩, ⟨0, 0, -1⟩⟩

def triParRayW : Ray := ⟨⟨0, 0, 1⟩, ⟨1, 0, 0⟩⟩

theorem triangle_barycentric_hit_witness :
    (∃ u v : ℚ, 0 ≤ u ∧ 0 ≤ v ∧ u + v ≤ 1
      ∧ (⟨5, ⟨1/5, 1/5, 0⟩, ⟨0, 0, 1⟩, 7⟩ : RayHit).hitpoint
          = triW.a + u • (triW.b - triW.a) + v • (triW.c - triW.a))
    ∧ Triangle.intersect_ray triW triParRayW 0 100 = none :=
  ⟨triangle_barycentric_hit.1 triW triRayW 0 100 ⟨5, ⟨1/5, 1/5, 0⟩, ⟨0, 0, 1⟩, 7⟩
      (of_decide_eq_true (by with_unfolding_all rfl)),
   triangle_barycentric_hit.2.2.1 triW triParRayW 0 100
      (of_decide_eq_true (by with_unfolding_all rfl))⟩

/-- Claim C6 (amended): the hit-record constructor `RayHit::new`
(tracing.rs) computes the front-face flag as
`dot(normal, ray.direction) < 0` and stores the normal negated whenever
that dot product is non-negative, so a hit built through `RayHit::new`
always satisfies `dot(stored normal, direction) ≤ 0` (equality when the
geometric normal is perpendicular to the ray).  The primitive
intersectors in geometry.rs construct their records directly, without
this re-orientation — see the counterexample. -/
theorem rayhit_new_orients_normal (d : ℚ) (n : Vec3) (m : ℕ) (ray : Ray) :
    ((RayHitT.new d n m ray).frontface = true ↔ n.dot ray.direction < 0)
    ∧ (RayHitT.new d n m ray).normal = (if n.dot ray.direction < 0 then n else -n)
    ∧ (RayHitT.new d n m ray).normal.dot ray.direction ≤ 0
    ∧ (RayHitT.new d n m ray).hitpoint = ray.origin + d • ray.direction := by
  refine ⟨?_, ?_, ?_, ?_⟩
  · unfold RayHitT.new
    dsimp only
    by_cases hf : n.dot ray.direction < 0 <;> simp [hf]
  · rfl
  · unfold RayHitT.new
    dsimp only
    by_cases hf : n.dot ray.direction < 0
    · rw [if_pos hf]
      exact le_of_lt hf
    · rw [if_neg hf]
      have hdot : (-n).dot ray.direction = -(n.dot ray.direction) := by
        simp only [Vec3.neg_def, Vec3.dot]
        ring
      rw [hdot]
      linarith [not_lt.1 hf]
  · rfl

def backTriW : Triangle := ⟨⟨0, 0, 0⟩, ⟨1, 0, 0⟩, ⟨0, 1, 0⟩, 7⟩

def backRayW : Ray := ⟨⟨1/5, 1/5, -5⟩, ⟨0, 0, 1⟩⟩

/-- Counterexample to claim C6 as stated: `Triangle::intersect_ray`
(geometry.rs) stores the raw geometric normal
`normalize(cross(e1, e2))` without re-orienting it and without any
front-face flag, so a triangle hit from its back side returns a hit
whose normal has a positive dot product with the ray direction. -/
theorem triangle_backface_normal_counterexample :
    Triangle.intersect_ray backTriW backRayW 0 100
      = some ⟨5, ⟨1/5, 1/5, 0⟩, ⟨0, 0, 1⟩, 7⟩
    ∧ decide (0 < (RayHit.mk 5 ⟨1/5, 1/5, 0⟩ ⟨0, 0, 1⟩ 7).normal.dot
        backRayW.direction) = true :=
  ⟨of_decide_eq_true (by with_unfolding_all rfl),
   by with_unfolding_all rfl⟩

/-! ### Sphere intersection (claim C7) -/

theorem sphere_disc_neg_none (s : Sphere) (ray : Ray) (lo hi : ℚ)
    (hd : sphDisc s ray < 0) : s.intersect_ray ray lo hi = none := by
  unfold Sphere.intersect_ray
  rw [if_pos hd]

theorem sphere_some_spec (s : Sphere) (ray : Ray) (lo hi : ℚ) (h : RayHit)
    (hres : s.intersect_ray ray lo hi = some h) :
    0 ≤ sphDisc s ray
    ∧ h.distance = (-(sphB s ray) - qSqrt (sphDisc s ray)) / (2 * sphA ray)
    ∧ lo ≤ h.distance ∧ h.distance ≤ hi
    ∧ h.hitpoint = ray.origin + h.distance • ray.direction
    ∧ h.normal = (h.hitpoint - s.center).normalize
    ∧ h.material = s.material := by
  unfold Sphere.intersect_ray at hres
  dsimp only at hres
  split_ifs at hres with hd hbound
  push_neg at hd hbound
  injection hres with he
  subst he
  exact ⟨hd, rfl, hbound.1, hbound.2, rfl, rfl, rfl⟩

theorem sphere_root (s : Sphere) (ray : Ray) (lo hi : ℚ) (h : RayHit)
    (hres : s.intersect_ray ray lo hi = some h)
    (hsq : qSqrt (sphDisc s ray) * qSqrt (sphDisc s ray) = sphDisc s ray)
    (hA : sphA ray ≠ 0) (hr : 0 < s.radius) :
    s.radius • h.normal = h.hitpoint - s.center := by
  obtain ⟨-, ht, -, -, hp, hn, -⟩ := sphere_some_spec s ray lo hi h hres
  have hroot : sphA ray * (h.distance * h.distance) + sphB s ray * h.distance
      + sphC s ray = 0 := by
    rw [ht]
    have hdisc : sphDisc s ray = sphB s ray * sphB s ray - 4 * sphA ray * sphC s ray := rfl
    have hS : qSqrt (sphDisc s ray) * qSqrt (sphDisc s ray)
        = sphB s ray * sphB s ray - 4 * sphA ray * sphC s ray := hsq.trans hdisc
    field_simp
    linear_combination (2 * sphA ray ^ 2) * hS
  have hnormsq : (h.hitpoint - s.center).dot (h.hitpoint - s.center)
      = s.radius * s.radius := by
    rw [hp]
    have hexp : ((ray.origin + h.distance • ray.direction) - s.center).dot
        ((ray.origin + h.distance • ray.direction) - s.center)
        = sphC s ray + s.radius * s.radius + h.distance * sphB s ray
          + h.distance * h.distance * sphA ray := by
      unfold sphA sphB sphC
      obtain ⟨⟨ox, oy, oz⟩, ⟨dx, dy, dz⟩⟩ := ray
      obtain ⟨⟨cx, cy, cz⟩, r, mm⟩ := s
      simp only [Vec3.sub_def, Vec3.add_def, Vec3.smul_def, Vec3.dot]
      ring
    rw [hexp]
    linear_combination hroot
  rw [hn, hp] at *
  unfold Vec3.normalize
  rw [hnormsq, qSqrt_mul_self s.radius (le_of_lt hr)]
  have hrne : s.radius ≠ 0 := ne_of_gt hr
  ext <;> simp [Vec3.smul_def] <;> field_simp

/-- Claim C7: `Sphere::intersect_ray` solves the quadratic
`|o + t d - c|² = r²`: a negative discriminant yields no hit; otherwise
only the smaller root `(-b - sqrt d) / 2a` is taken and rejected outside
`[t_min, t_max]`; the returned normal is `normalize(hitpoint - center)`,
which equals `(hitpoint - center) / r` whenever the discriminant's
square root is exact (as it is in real arithmetic, and in the rational
model whenever the discriminant is a perfect square); and the concrete
scenario — unit sphere at the origin, ray from `(0,0,5)` toward
`(0,0,-1)` over `[0, 100]` — hits at distance 4 with hit point
`(0,0,1)` and unit normal `(0,0,1)`. -/
theorem sphere_intersect_spec :
    (∀ (s : Sphere) (ray : Ray) (lo hi : ℚ),
        sphDisc s ray < 0 → s.intersect_ray ray lo hi = none)
    ∧ (∀ (s : Sphere) (ray : Ray) (lo hi : ℚ) (h : RayHit),
        s.intersect_ray ray lo hi = some h →
        0 ≤ sphDisc s ray
        ∧ h.distance = (-(sphB s ray) - qSqrt (sphDisc s ray)) / (2 * sphA ray)
        ∧ lo ≤ h.distance ∧ h.distance ≤ hi
        ∧ h.hitpoint = ray.origin + h.distance • ray.direction
        ∧ h.normal = (h.hitpoint - s.center).normalize
        ∧ h.material = s.material)
    ∧ (∀ (s : Sphere) (ray : Ray) (lo hi : ℚ) (h : RayHit),
        s.intersect_ray ray lo hi = some h →
        qSqrt (sphDisc s ray) * qSqrt (sphDisc s ray) = sphDisc s ray →
        sphA ray ≠ 0 → 0 < s.radius →
        s.radius • h.normal = h.hitpoint - s.center)
    ∧ Sphere.intersect_ray ⟨⟨0, 0, 0⟩, 1, 3⟩ ⟨⟨0, 0, 5⟩, ⟨0, 0, -1⟩⟩ 0 100
        = some ⟨4, ⟨0, 0, 1⟩, ⟨0, 0, 1⟩, 3⟩ :=
  ⟨sphere_disc_neg_none,
   sphere_some_spec,
   fun s ray lo hi h hres hsq hA hr => sphere_root s ray lo hi h hres hsq hA hr,
   of_decide_eq_true (by with_unfolding_all rfl)⟩

theorem sphere_intersect_spec_witness :
    Sphere.intersect_ray ⟨⟨0, 0, 0⟩, 1, 3⟩ ⟨⟨0, 0, 5⟩, ⟨1, 0, 0⟩⟩ 0 100 = none
    ∧ (Sphere.mk ⟨0, 0, 0⟩ 1 3).radius • (⟨4, ⟨0, 0, 1⟩, ⟨0, 0, 1⟩, 3⟩ : RayHit).normal
        = (⟨4, ⟨0, 0, 1⟩, ⟨0, 0, 1⟩, 3⟩ : RayHit).hitpoint - (Sphere.mk ⟨0, 0, 0⟩ 1 3).center :=
  ⟨sphere_intersect_spec.1 ⟨⟨0, 0, 0⟩, 1, 3⟩ ⟨⟨0, 0, 5⟩, ⟨1, 0, 0⟩⟩ 0 100
      (of_decide_eq_true (by with_unfolding_all rfl)),
   sphere_intersect_spec.2.2.1 ⟨⟨0, 0, 0⟩, 1, 3⟩ ⟨⟨0, 0, 5⟩, ⟨0, 0, -1⟩⟩ 0 100
      ⟨4, ⟨0, 0, 1⟩, ⟨0, 0, 1⟩, 3⟩
      (of_decide_eq_true (by with_unfolding_all rfl))
      (of_decide_eq_true (by with_unfolding_all rfl))
      (of_decide_eq_true (by with_unfolding_all rfl))
      (of_decide_eq_true (by with_unfolding_all rfl))⟩

/-! ### Degenerate geometry returns no hit (claim C8) -/

theorem plane_away_none (p : Plane) (ray : Ray) (lo hi : ℚ)
    (hd : 0 ≤ ray.direction.dot (planeFacingNormal p.point p.normal ray)) :
    p.intersect_ray ray lo hi = none := by
  unfold Plane.intersect_ray
  dsimp only
  rw [if_pos hd]

/-- Claim C8: geometric degeneracies are reported as the absence of a hit
(`none`), never a fault (the embedded functions are total): a
Möller–Trumbore denominator below epsilon in the triangle test, a
negative discriminant in the sphere test, and a ray parallel to or
moving away from a plane (`dot(direction, facing normal) >= 0` where the
facing normal is the plane normal flipped via `signum` toward the ray
origin's side) all yield `none`, and the plane reports no bounding
box. -/
theorem degenerate_geometry_returns_none :
    (∀ (tr : Triangle) (ray : Ray) (lo hi : ℚ),
        |mtDenom tr.a tr.b tr.c ray| < mtEpsilon →
        tr.intersect_ray ray lo hi = none)
    ∧ (∀ (s : Sphere) (ray : Ray) (lo hi : ℚ),
        sphDisc s ray < 0 → s.intersect_ray ray lo hi = none)
    ∧ (∀ (p : Plane) (ray : Ray) (lo hi : ℚ),
        0 ≤ ray.direction.dot (planeFacingNormal p.point p.normal ray) →
        p.intersect_ray ray lo hi = none)
    ∧ (∀ p : Plane, p.bounding_box = none) :=
  ⟨fun tr ray lo hi heps => mt_eps_none tr.a tr.b tr.c tr.material ray lo hi heps,
   sphere_disc_neg_none,
   plane_away_none,
   fun _ => rfl⟩

theorem degenerate_geometry_returns_none_witness :
    Triangle.intersect_ray ⟨⟨0, 0, 0⟩, ⟨1, 0, 0⟩, ⟨0, 1, 0⟩, 2⟩ ⟨⟨0, 0, 1⟩, ⟨1, 1, 0⟩⟩ 0 100
      = none
    ∧ Sphere.intersect_ray ⟨⟨0, 0, 0⟩, 1, 3⟩ ⟨⟨0, 0, 5⟩, ⟨0, 1, 0⟩⟩ 0 100 = none
    ∧ Plane.intersect_ray ⟨⟨0, 0, 0⟩, ⟨0, 1, 0⟩, 4⟩ ⟨⟨0, 5, 0⟩, ⟨0, 1, 0⟩⟩ 0 100 = none
    ∧ Plane.bounding_box ⟨⟨0, 0, 0⟩, ⟨0, 1, 0⟩, 4⟩ = none :=
  ⟨degenerate_geometry_returns_none.1 ⟨⟨0, 0, 0⟩, ⟨1, 0, 0⟩, ⟨0, 1, 0⟩, 2⟩
      ⟨⟨0, 0, 1⟩, ⟨1, 1, 0⟩⟩ 0 100 (of_decide_eq_true (by with_unfolding_all rfl)),
   degenerate_geometry_returns_none.2.1 ⟨⟨0, 0, 0⟩, 1, 3⟩ ⟨⟨0, 0, 5⟩, ⟨0, 1, 0⟩⟩ 0 100
      (of_decide_eq_true (by with_unfolding_all rfl)),
   degenerate_geometry_returns_none.2.2.1 ⟨⟨0, 0, 0⟩, ⟨0, 1, 0⟩, 4⟩
      ⟨⟨0, 5, 0⟩, ⟨0, 1, 0⟩⟩ 0 100 (of_decide_eq_true (by with_unfolding_all rfl)),
   degenerate_geometry_returns_none.2.2.2 ⟨⟨0, 0, 0⟩, ⟨0, 1, 0⟩, 4⟩⟩

/-- Claim C10: `StaticMesh::intersect_ray` returns exactly the BVH root's
hit with only the material replaced by the mesh's own (distance, hit
point and normal unchanged), and `none` whenever the BVH misses or no
BVH root exists. -/
theorem static_mesh_replaces_material :
    (∀ (sm : StaticMesh) (ray : Ray) (lo hi : ℚ),
        sm.intersect_ray ray lo hi
          = (sm.bvh_root.bind fun root => root.intersect_ray ray lo hi).map
              (fun h => { h with material := sm.material }))
    ∧ (∀ (sm : StaticMesh) (ray : Ray) (lo hi : ℚ) (h : RayHit),
        sm.intersect_ray ray lo hi = some h →
        ∃ h0, (sm.bvh_root.bind fun root => root.intersect_ray ray lo hi) = some h0
          ∧ h.distance = h0.distance ∧ h.hitpoint = h0.hitpoint
          ∧ h.normal = h0.normal ∧ h.material = sm.material)
    ∧ (∀ (sm : StaticMesh) (ray : Ray) (lo hi : ℚ),
        sm.bvh_root = none → sm.intersect_ray ray lo hi = none) := by
  refine ⟨?_, ?_, ?_⟩
  · intro sm ray lo hi
    unfold StaticMesh.intersect_ray
    cases sm.bvh_root with
    | none => rfl
    | some root =>
      dsimp only
      have hbind : ((some root).bind fun root => root.intersect_ray ray lo hi)
          = root.intersect_ray ray lo hi := rfl
      rw [hbind]
      cases root.intersect_ray ray lo hi <;> rfl
  · intro sm ray lo hi h hres
    unfold StaticMesh.intersect_ray at hres
    cases hroot : sm.bvh_root with
    | none =>
      rw [hroot] at hres
      exact Option.noConfusion hres
    | some root =>
      rw [hroot] at hres
      dsimp only at hres
      cases hhit : root.intersect_ray ray lo hi with
      | none =>
        rw [hhit] at hres
        exact Option.noConfusion hres
      | some h0 =>
        rw [hhit] at hres
        dsimp only at hres
        injection hres with he
        subst he
        exact ⟨h0, hhit, rfl, rfl, rfl, rfl⟩
  · intro sm ray lo hi hnone
    unfold StaticMesh.intersect_ray
    rw [hnone]

def smMeshW : Mesh := ⟨[0, 0, 0, 1, 0, 0, 0, 1, 0], [0, 1, 2]⟩

def smW : StaticMesh := ⟨smMeshW, 9, some (build_bvh smMeshW [0])⟩

def smRayW : Ray := ⟨⟨1/5, 1/5, 5⟩, ⟨0, 0, -1⟩⟩

theorem static_mesh_replaces_material_witness :
    StaticMesh.intersect_ray smW smRayW 0 100 = some ⟨5, ⟨1/5, 1/5, 0⟩, ⟨0, 0, 1⟩, 9⟩
    ∧ (∃ h0, (smW.bvh_root.bind fun root => root.intersect_ray smRayW 0 100) = some h0
        ∧ (⟨5, ⟨1/5, 1/5, 0⟩, ⟨0, 0, 1⟩, 9⟩ : RayHit).distance = h0.distance
        ∧ (⟨5, ⟨1/5, 1/5, 0⟩, ⟨0, 0, 1⟩, 9⟩ : RayHit).hitpoint = h0.hitpoint
        ∧ (⟨5, ⟨1/5, 1/5, 0⟩, ⟨0, 0, 1⟩, 9⟩ : RayHit).normal = h0.normal
        ∧ (⟨5, ⟨1/5, 1/5, 0⟩, ⟨0, 0, 1⟩, 9⟩ : RayHit).material = smW.material) :=
  have hres : StaticMesh.intersect_ray smW smRayW 0 100
      = some ⟨5, ⟨1/5, 1/5, 0⟩, ⟨0, 0, 1⟩, 9⟩ :=
    of_decide_eq_true (by with_unfolding_all rfl)
  ⟨hres, static_mesh_replaces_material.2.1 smW smRayW 0 100 _ hres⟩
